import Mathlib

/-!
# Verification of the image-tool UI widget (`src/ui.ts`)

Shallow embedding of the `Ui` class of the image block widget.  The DOM is
modelled as a store of elements addressed by natural-number ids; element
`children` lists hold ids of attached child nodes.  Host classes, the icon
string and the translation of the button label are parameters of the
configuration.  Event-driven behaviour (the `load` / `loadeddata` readiness
listeners registered by `fillImage`) is modelled by a `pending` list of
registered listeners together with an explicit `fireReady` operation that runs
the corresponding handler; firing is allowed at any time and any number of
times, a superset of the real single-firing behaviour, so invariants proved
over it also hold of the real widget.  The `console.log` diagnostic in
`render` and the `click` listener of the file button (which only invokes the
host callback `onSelectFile` and never touches widget state) have no
observable effect on the modelled state and are omitted.
-/

/-- Value of a DOM property set through the attribute map of `make`
(`src` is a string, `autoplay`/`loop`/`muted`/`playsinline` are booleans). -/
inductive AttrV where
  | str (s : String)
  | bool (b : Bool)
deriving Repr, DecidableEq

/-- A DOM element: tag name, class list (an ordered duplicate-free token
list, as `DOMTokenList`), property/attribute map, `innerHTML`,
`dataset.placeholder`, the three inline-style properties the widget touches,
and the ids of attached children. -/
structure Elem where
  tag : String
  classes : List String
  attrs : List (String × AttrV)
  innerHTML : String
  placeholder : Option String
  styleDisplay : String
  stylePointerEvents : String
  styleBackgroundImage : String
  children : List Nat
deriving Repr, DecidableEq

/-- `classList.add c`: append the token unless already present. -/
def classAdd (c : String) (l : List String) : List String :=
  if c ∈ l then l else l ++ [c]

/-- `classList.toggle c force`: add when `force` is true, remove otherwise. -/
def classToggle (c : String) (force : Bool) (l : List String) : List String :=
  if force then classAdd c l else l.erase c

/-- The test of the regular expression `/\.mp4$/`: whether `post` is a suffix
of `s`, computed on the character lists. -/
def strEndsWith (s post : String) : Bool :=
  post.length ≤ s.length && (s.data.drop (s.length - post.length) == post.data)

/-- Set (insert or replace) a key in a property map. -/
def attrsSet (k : String) (v : AttrV) : List (String × AttrV) → List (String × AttrV)
  | [] => [(k, v)]
  | (k', v') :: rest => if k' = k then (k, v) :: rest else (k', v') :: attrsSet k v rest

/-- Modelled from the spec: the generic DOM-node-construction helper `make`
(`src/utils/dom`, not under `src/`): "a small builder function parameterized
by element kind, class list, and attribute mapping" — it creates an element
with the given tag, adds each class in order, and sets each attribute of the
mapping on the element.  Fresh elements start detached, with empty
`innerHTML`, no placeholder and empty inline styles. -/
def make (tag : String) (classes : List String) (attrs : List (String × AttrV)) : Elem :=
  { tag := tag
    classes := classes.foldl (fun l c => classAdd c l) []
    attrs := attrs.foldl (fun m kv => attrsSet kv.1 kv.2 m) []
    innerHTML := ""
    placeholder := none
    styleDisplay := ""
    stylePointerEvents := ""
    styleBackgroundImage := ""
    children := [] }

/-- The DOM store: element `i` is `store.get? i`.  Fresh ids are allocated at
the end; ids of live nodes are stable. -/
abbrev Store := List Elem

/-- Update the element at id `i` (no-op on a dangling id). -/
def updNode (st : Store) (i : Nat) (f : Elem → Elem) : Store :=
  match st[i]? with
  | some e => st.set i (f e)
  | none => st

/-- `UiState` enumeration of `ui.ts` (`empty` / `uploading` / `filled`),
in declaration order. -/
inductive UiState where
  | Empty
  | Uploading
  | Filled
deriving Repr, DecidableEq

/-- The string value carried by each `UiState` member. -/
def UiState.value : UiState → String
  | .Empty => "empty"
  | .Uploading => "uploading"
  | .Filled => "filled"

/-- Declaration-order list of the enum members, as iterated by
`for (const statusType in UiState)`. -/
def UiState.all : List UiState := [.Empty, .Uploading, .Filled]

/-- Construction parameters: the recognized config options
(`captionPlaceholder`, `buttonContent`), the host-API style classes consumed
through the `CSS` getter, the icon asset and the translated default button
label, and the `readOnly` flag. -/
structure Cfg where
  captionPlaceholder : Option String
  buttonContent : Option String
  stylesBlock : String
  stylesLoader : String
  stylesInput : String
  stylesButton : String
  iconPicture : String
  tSelectAnImage : String
  readOnly : Bool
deriving Repr, DecidableEq

/-- Render input: an optional file descriptor, modelled as the key/value list
of the supplied object (`url` is looked up among the keys), and an optional
caption. -/
structure ToolData where
  file : Option (List (String × String))
  caption : Option String
deriving Repr, DecidableEq

/-- The widget state: the DOM store plus the `Nodes` handle set
(`wrapper`, `imageContainer`, `fileButton`, `imagePreloader`, `caption`,
optional `imageEl`), the registered readiness listeners (temp element id and
event name, in registration order), and the construction parameters. -/
structure UiT where
  store : Store
  wrapper : Nat
  imageContainer : Nat
  fileButton : Nat
  imagePreloader : Nat
  caption : Option Nat
  imageEl : Option Nat
  pending : List (Nat × String)
  cfg : Cfg
deriving Repr, DecidableEq

namespace UiT

/-- Tool class names of the `CSS` getter. -/
def cssWrapper : String := "image-tool"

/-- Class of the image container. -/
def cssImageContainer : String := "image-tool__image"

/-- Class of the preloader element. -/
def cssImagePreloader : String := "image-tool__image-preloader"

/-- Class of the media element. -/
def cssImageEl : String := "image-tool__image-picture"

/-- The wrapper modifier class of a `UiState`
(`` `${this.CSS.wrapper}--${UiState[...]}` ``). -/
def stateClass (s : UiState) : String := cssWrapper ++ "--" ++ s.value

/-- `createFileButton`: a div with the host button class whose `innerHTML` is
`config.buttonContent` or the icon followed by the translated label.  The
`click` listener only invokes the host callback and is not part of the
modelled state. -/
def createFileButton (cfg : Cfg) : Elem :=
  let button := make "div" [cfg.stylesButton] []
  { button with
      innerHTML := cfg.buttonContent.getD (cfg.iconPicture ++ " " ++ cfg.tSelectAnImage) }

/-- The constructor: builds the five nodes, sets the caption placeholder, and
assembles `wrapper → imageContainer → imagePreloader` and
`wrapper → fileButton`.  The `wrapper.appendChild(caption)` line is commented
out in the source, so the caption node stays detached. -/
def construct (cfg : Cfg) : UiT :=
  let wrapperE := make "div" [cfg.stylesBlock, cssWrapper] []
  let imageContainerE := make "div" [cssImageContainer] []
  let fileButtonE := createFileButton cfg
  let imagePreloaderE := make "div" [cssImagePreloader] []
  let captionE := make "div" [] []
  let captionE := { captionE with placeholder := cfg.captionPlaceholder }
  let imageContainerE := { imageContainerE with children := [3] }
  let wrapperE := { wrapperE with children := [1, 2] }
  { store := [wrapperE, imageContainerE, fileButtonE, imagePreloaderE, captionE]
    wrapper := 0
    imageContainer := 1
    fileButton := 2
    imagePreloader := 3
    caption := some 4
    imageEl := none
    pending := []
    cfg := cfg }

/-- `applyTune`: toggle the wrapper modifier `` `${this.CSS.wrapper}--${tuneName}` ``. -/
def applyTune (u : UiT) (tuneName : String) (status : Bool) : UiT :=
  { u with store := updNode u.store u.wrapper (fun e =>
      { e with classes := classToggle (cssWrapper ++ "--" ++ tuneName) status e.classes }) }

/-- `toggleStatus`: for each enum member, toggle its wrapper modifier with
force `status === member`. -/
def toggleStatus (u : UiT) (status : UiState) : UiT :=
  { u with store := updNode u.store u.wrapper (fun e =>
      { e with classes := (UiState.all.foldl
          (fun cs s => classToggle (stateClass s) (status == s) cs) e.classes) }) }

/-- `fillImage`: pick the tag from the url (`/\.mp4$/` tests the suffix `.mp4`),
build the attribute map (`src`, plus `autoplay`/`loop`/`muted`/`playsinline`
for video), pick the readiness event, create the temporary element off-tree,
hide and disable the file button, and register the readiness listener.  The
temporary element is not added to the DOM until the listener fires. -/
def fillImage (u : UiT) (url : String) : UiT :=
  let isVideo := strEndsWith url ".mp4"
  let tag := if isVideo then "VIDEO" else "IMG"
  let attributes :=
    if isVideo then
      [("src", AttrV.str url), ("autoplay", AttrV.bool true), ("loop", AttrV.bool true),
        ("muted", AttrV.bool true), ("playsinline", AttrV.bool true)]
    else
      [("src", AttrV.str url)]
  let eventName := if isVideo then "loadeddata" else "load"
  let tempImageEl := make tag [cssImageEl] attributes
  let tempId := u.store.length
  { u with
      store := updNode (u.store ++ [tempImageEl]) u.fileButton (fun e =>
        { e with styleDisplay := "none", stylePointerEvents := "none" })
      pending := u.pending ++ [(tempId, eventName)] }

/-- The readiness handler registered by `fillImage` for temp element `tempId`:
remove the previous `imageEl` from the container if one exists, set
`imageEl := tempImageEl`, append it to the container (`appendChild` detaches
the node from its current parent first), switch to `Filled`, and clear the
preloader background image. -/
def fireHandler (u : UiT) (tempId : Nat) : UiT :=
  let u :=
    match u.imageEl with
    | some old =>
        { u with store := updNode u.store u.imageContainer (fun e =>
            { e with children := e.children.erase old }) }
    | none => u
  let u := { u with imageEl := some tempId }
  let u := { u with store := updNode u.store u.imageContainer (fun e =>
      { e with children := e.children.erase tempId ++ [tempId] }) }
  let u := toggleStatus u .Filled
  { u with store := updNode u.store u.imagePreloader (fun e =>
      { e with styleBackgroundImage := "" }) }

/-- Fire the readiness event for the `i`-th registered listener (no-op when no
such listener exists). -/
def fireReady (u : UiT) (i : Nat) : UiT :=
  match u.pending[i]? with
  | some p => fireHandler u p.1
  | none => u

/-- The url passed to `fillImage` by `render`: `toolData.file.url`.  A missing
`url` key yields the JS `undefined`, which stringifies to `"undefined"` when
assigned to the `src` property. -/
def fileUrl (file : List (String × String)) : String :=
  ((file.lookup "url").getD "undefined")

/-- `render`: empty or absent file descriptor switches to `Empty`; otherwise
the media at `toolData.file.url` is shown immediately.  Returns the wrapper
element id for the host to mount. -/
def render (u : UiT) (toolData : ToolData) : UiT × Nat :=
  match toolData.file with
  | none => (toggleStatus u .Empty, u.wrapper)
  | some file =>
      if file.length = 0 then (toggleStatus u .Empty, u.wrapper)
      else (fillImage u (fileUrl file), u.wrapper)

/-- `hidePreloader`: clear the preloader background image and switch to `Empty`. -/
def hidePreloader (u : UiT) : UiT :=
  let u := { u with store := updNode u.store u.imagePreloader (fun e =>
      { e with styleBackgroundImage := "" }) }
  toggleStatus u .Empty

/-- `fillCaption`: set the caption `innerHTML` when the caption node exists. -/
def fillCaption (u : UiT) (text : String) : UiT :=
  match u.caption with
  | some c => { u with store := updNode u.store c (fun e => { e with innerHTML := text }) }
  | none => u

/-- `clearImage`: when `imageEl` is present, clear its `src`, hide it, and
restore the file button to visible (`flex`) and interactive (`auto`); the
node itself is not removed from the tree. -/
def clearImage (u : UiT) : UiT :=
  match u.imageEl with
  | some img =>
      let u := { u with store := updNode u.store img (fun e =>
          { e with attrs := attrsSet "src" (AttrV.str "") e.attrs, styleDisplay := "none" }) }
      { u with store := updNode u.store u.fileButton (fun e =>
          { e with styleDisplay := "flex", stylePointerEvents := "auto" }) }
  | none => u

/-! ## Observations on the modelled DOM -/

/-- The tag of the store element at id `i` (empty on a dangling id). -/
def tagAtS (st : Store) (i : Nat) : String := ((st[i]?).map Elem.tag).getD ""

/-- The attached-children list of the store element at id `i`. -/
def childrenAtS (st : Store) (i : Nat) : List Nat := ((st[i]?).map Elem.children).getD []

/-- The class list of the store element at id `i`. -/
def classesAtS (st : Store) (i : Nat) : List String := ((st[i]?).map Elem.classes).getD []

/-- Whether the store element at id `i` is a media element (image or video). -/
def isMediaS (st : Store) (i : Nat) : Bool := tagAtS st i == "VIDEO" || tagAtS st i == "IMG"

/-- The element at id `i`, when live. -/
def nodeAt (u : UiT) (i : Nat) : Option Elem := u.store[i]?

/-- The attached-children list of the element at id `i` (empty on a dangling id). -/
def childrenOf (u : UiT) (i : Nat) : List Nat := childrenAtS u.store i

/-- The wrapper element's class list. -/
def wrapperClasses (u : UiT) : List String := classesAtS u.store u.wrapper

/-- The tag of the element at id `i` (empty on a dangling id). -/
def tagAt (u : UiT) (i : Nat) : String := tagAtS u.store i

/-- Whether the element at id `i` is a media element (image or video). -/
def isMedia (u : UiT) (i : Nat) : Bool := isMediaS u.store i

/-- The media elements currently attached to the media container. -/
def mediaChildren (u : UiT) : List Nat :=
  (childrenOf u u.imageContainer).filter (fun j => isMedia u j)

/-- Whether the `UiState` modifier class of `s` is present on the wrapper. -/
def statePresent (u : UiT) (s : UiState) : Prop := stateClass s ∈ wrapperClasses u

instance (u : UiT) (s : UiState) : Decidable (statePresent u s) := by
  unfold statePresent; infer_instance

/-- The `src` property of the element at id `i`. -/
def srcAt (u : UiT) (i : Nat) : Option AttrV :=
  ((u.store[i]?).map (fun e => e.attrs.lookup "src")).getD none

/-- The value of property/attribute `k` of the element at id `i`. -/
def attrOf (u : UiT) (i : Nat) (k : String) : Option AttrV :=
  ((u.store[i]?).map (fun e => e.attrs.lookup k)).getD none

/-- The inline `style.display` of the element at id `i`. -/
def styleDisplayAt (u : UiT) (i : Nat) : String :=
  ((u.store[i]?).map Elem.styleDisplay).getD ""

/-- The inline `style.pointerEvents` of the element at id `i`. -/
def stylePointerEventsAt (u : UiT) (i : Nat) : String :=
  ((u.store[i]?).map Elem.stylePointerEvents).getD ""

/-- The inline `style.backgroundImage` of the element at id `i`. -/
def styleBackgroundImageAt (u : UiT) (i : Nat) : String :=
  ((u.store[i]?).map Elem.styleBackgroundImage).getD ""

/-- The `innerHTML` of the element at id `i`. -/
def innerHTMLAt (u : UiT) (i : Nat) : String :=
  ((u.store[i]?).map Elem.innerHTML).getD ""

/-- The `dataset.placeholder` of the element at id `i`. -/
def placeholderAt (u : UiT) (i : Nat) : Option String :=
  ((u.store[i]?).map Elem.placeholder).getD none

/-- The `UiState` modifiers currently present on the wrapper, in enum order. -/
def presentStates (u : UiT) : List UiState :=
  UiState.all.filter (fun s => decide (statePresent u s))

/-- `b` is a strict descendant of `a` in the tree rooted by the children lists. -/
inductive Desc (u : UiT) : Nat → Nat → Prop where
  | child {a b : Nat} : b ∈ childrenOf u a → Desc u a b
  | step {a b c : Nat} : b ∈ childrenOf u a → Desc u b c → Desc u a c

/-- A concrete host configuration, used to instantiate witness scenarios. -/
def cfgDemo : Cfg :=
  { captionPlaceholder := some "Enter a caption"
    buttonContent := none
    stylesBlock := "cdx-block"
    stylesLoader := "cdx-loader"
    stylesInput := "cdx-input"
    stylesButton := "cdx-button"
    iconPicture := "icon-picture"
    tSelectAnImage := "Select an Image"
    readOnly := false }

/-- One externally triggerable step of the widget: a host-driven call or the
firing of a registered readiness listener. -/
inductive Op where
  | render (toolData : ToolData)
  | hidePreloader
  | fillImage (url : String)
  | fillCaption (text : String)
  | clearImage
  | applyTune (tuneName : String) (status : Bool)
  | fireReady (i : Nat)
deriving Repr, DecidableEq

/-- Steps that unconditionally run `toggleStatus` (forcing a definite state
modifier): `hidePreloader`, and `render` on an absent or empty file. -/
def forcesStatus : Op → Prop
  | Op.hidePreloader => True
  | Op.render toolData => toolData.file = none ∨ toolData.file = some []
  | _ => False

instance : DecidablePred forcesStatus := fun op => by
  cases op <;> simp only [forcesStatus] <;> infer_instance

/-- Steps whose tune modifier does not collide with a `UiState` modifier
(every step other than `applyTune` trivially qualifies). -/
def tuneOk : Op → Prop
  | Op.applyTune tuneName _ =>
      cssWrapper ++ "--" ++ tuneName ≠ stateClass UiState.Empty ∧
      cssWrapper ++ "--" ++ tuneName ≠ stateClass UiState.Uploading ∧
      cssWrapper ++ "--" ++ tuneName ≠ stateClass UiState.Filled
  | _ => True

instance : DecidablePred tuneOk := fun op => by
  cases op <;> simp only [tuneOk] <;> infer_instance

/-- Apply one step. -/
def applyOp (u : UiT) : Op → UiT
  | .render toolData => (u.render toolData).1
  | .hidePreloader => u.hidePreloader
  | .fillImage url => u.fillImage url
  | .fillCaption text => u.fillCaption text
  | .clearImage => u.clearImage
  | .applyTune tuneName status => u.applyTune tuneName status
  | .fireReady i => u.fireReady i

/-- Run a sequence of steps from a state. -/
def run (u : UiT) (ops : List Op) : UiT := ops.foldl applyOp u

/-! ## Store and class-list lemmas -/

theorem strEndsWith_iff (s post : String) : strEndsWith s post = true ↔ post.data <:+ s.data := by
  constructor
  · intro h
    rw [strEndsWith, Bool.and_eq_true] at h
    have heq : s.data.drop (s.length - post.length) = post.data := by simpa using h.2
    exact List.suffix_iff_eq_drop.mpr heq.symm
  · intro h
    have heq := List.suffix_iff_eq_drop.mp h
    have hle : post.length ≤ s.length := h.length_le
    rw [strEndsWith, Bool.and_eq_true]
    exact ⟨by simpa using hle, by simpa using heq.symm⟩

theorem updNode_length (st : Store) (i : Nat) (f : Elem → Elem) :
    (updNode st i f).length = st.length := by
  unfold updNode
  cases h : st[i]? with
  | none => rfl
  | some e => simp

theorem updNode_getElem_ne (st : Store) (i : Nat) (f : Elem → Elem) (j : Nat) (h : i ≠ j) :
    (updNode st i f)[j]? = st[j]? := by
  unfold updNode
  cases h' : st[i]? with
  | none => rfl
  | some e => simp [List.getElem?_set_ne h]

theorem updNode_getElem_self (st : Store) (i : Nat) (f : Elem → Elem) :
    (updNode st i f)[i]? = (st[i]?).map f := by
  unfold updNode
  cases h' : st[i]? with
  | none => simp [h']
  | some e =>
      have hi : i < st.length := by
        by_contra hc
        rw [List.getElem?_eq_none (Nat.le_of_not_lt hc)] at h'
        exact Option.noConfusion h'
      simp [h', List.getElem?_set_self, hi]

theorem mem_classAdd {c d : String} {l : List String} :
    c ∈ classAdd d l ↔ c ∈ l ∨ c = d := by
  unfold classAdd
  by_cases hd : d ∈ l
  · simp only [if_pos hd]
    constructor
    · exact Or.inl
    · rintro (h | rfl)
      · exact h
      · exact hd
  · simp [if_neg hd]

theorem nodup_classAdd {d : String} {l : List String} (h : l.Nodup) :
    (classAdd d l).Nodup := by
  unfold classAdd
  by_cases hd : d ∈ l
  · simpa [if_pos hd]
  · rw [if_neg hd]
    refine List.Nodup.append h (List.nodup_singleton d) ?hdisj
    intro x hx hx'
    rw [List.mem_singleton] at hx'
    exact hd (hx' ▸ hx)

theorem nodup_classToggle {d : String} {b : Bool} {l : List String} (h : l.Nodup) :
    (classToggle d b l).Nodup := by
  unfold classToggle
  cases b with
  | true => simpa using nodup_classAdd h
  | false => simpa using h.erase d

theorem mem_classToggle_ne {c d : String} (hcd : c ≠ d) (b : Bool) (l : List String) :
    c ∈ classToggle d b l ↔ c ∈ l := by
  unfold classToggle
  cases b with
  | true => simp [mem_classAdd, hcd]
  | false => simpa using List.mem_erase_of_ne hcd

theorem mem_classToggle_self {c : String} {l : List String} (h : l.Nodup) (b : Bool) :
    c ∈ classToggle c b l ↔ b = true := by
  unfold classToggle
  cases b with
  | true => simp [mem_classAdd]
  | false => simp [h.mem_erase_iff]

theorem nodup_foldl_classAdd (l : List String) (acc : List String) (h : acc.Nodup) :
    (l.foldl (fun m c => classAdd c m) acc).Nodup := by
  induction l generalizing acc with
  | nil => simpa using h
  | cons a rest ih => exact ih (classAdd a acc) (nodup_classAdd h)

/-- A duplicate-free list that contains `i`, all of whose members satisfying
`p` equal `i`, filters under `p` to exactly `[i]` when `p i` holds. -/
theorem filter_eq_singleton {p : Nat → Bool} {l : List Nat} {i : Nat}
    (hnd : l.Nodup) (hmem : i ∈ l) (hp : p i = true)
    (hall : ∀ j ∈ l, p j = true → j = i) : l.filter p = [i] := by
  induction l with
  | nil => cases hmem
  | cons a rest ih =>
      rcases List.mem_cons.mp hmem with rfl | hi
      · have hrest : rest.filter p = [] := by
          rw [List.filter_eq_nil_iff]
          intro j hj hpj
          have := hall j (List.mem_cons_of_mem _ hj) hpj
          exact (List.nodup_cons.mp hnd).1 (this ▸ hj)
        simp [List.filter_cons, hp, hrest]
      · have hpa : p a = false := by
          by_contra hc
          have hpa' : p a = true := by
            cases h' : p a with
            | true => rfl
            | false => exact absurd h' hc
          have := hall a (List.mem_cons_self a rest) hpa'
          exact (List.nodup_cons.mp hnd).1 (this ▸ hi)
        rw [List.filter_cons, if_neg (by simp [hpa])]
        exact ih (List.nodup_cons.mp hnd).2 hi
          (fun j hj hpj => hall j (List.mem_cons_of_mem _ hj) hpj)

/-! ## Characterization of `toggleStatus` and `applyTune` -/

theorem wrapperClasses_toggleStatus (u : UiT) (s : UiState) (h : u.wrapper < u.store.length) :
    wrapperClasses (toggleStatus u s) =
      classToggle (stateClass .Filled) (s == .Filled)
        (classToggle (stateClass .Uploading) (s == .Uploading)
          (classToggle (stateClass .Empty) (s == .Empty) (wrapperClasses u))) := by
  have he := List.getElem?_eq_getElem h
  simp [wrapperClasses, classesAtS, toggleStatus, UiState.all, updNode_getElem_self, he]

theorem statePresent_toggleStatus (u : UiT) (hnd : (wrapperClasses u).Nodup)
    (h : u.wrapper < u.store.length) (s t : UiState) :
    statePresent (toggleStatus u s) t ↔ s = t := by
  have h1 : ∀ b, (classToggle (stateClass .Empty) b (wrapperClasses u)).Nodup :=
    fun b => nodup_classToggle hnd
  have h2 : ∀ b b', (classToggle (stateClass .Uploading) b'
      (classToggle (stateClass .Empty) b (wrapperClasses u))).Nodup :=
    fun b b' => nodup_classToggle (h1 b)
  have neEU : stateClass .Empty ≠ stateClass .Uploading := by decide
  have neEF : stateClass .Empty ≠ stateClass .Filled := by decide
  have neUE : stateClass .Uploading ≠ stateClass .Empty := by decide
  have neUF : stateClass .Uploading ≠ stateClass .Filled := by decide
  have neFE : stateClass .Filled ≠ stateClass .Empty := by decide
  have neFU : stateClass .Filled ≠ stateClass .Uploading := by decide
  rw [statePresent, wrapperClasses_toggleStatus u s h]
  cases s <;> cases t <;>
    simp [mem_classToggle_self, mem_classToggle_ne, h1, h2, hnd,
      neEU, neEF, neUE, neUF, neFE, neFU]

theorem nodup_wrapperClasses_toggleStatus (u : UiT) (s : UiState)
    (hnd : (wrapperClasses u).Nodup) : (wrapperClasses (toggleStatus u s)).Nodup := by
  by_cases h : u.wrapper < u.store.length
  · rw [wrapperClasses_toggleStatus u s h]
    exact nodup_classToggle (nodup_classToggle (nodup_classToggle hnd))
  · have he : u.store[u.wrapper]? = none := List.getElem?_eq_none (Nat.le_of_not_lt h)
    simp [wrapperClasses, classesAtS, toggleStatus, updNode, he]

theorem wrapperClasses_applyTune (u : UiT) (n : String) (b : Bool)
    (h : u.wrapper < u.store.length) :
    wrapperClasses (applyTune u n b) =
      classToggle (cssWrapper ++ "--" ++ n) b (wrapperClasses u) := by
  have he := List.getElem?_eq_getElem h
  simp [wrapperClasses, classesAtS, applyTune, updNode_getElem_self, he]

theorem nodup_wrapperClasses_applyTune (u : UiT) (n : String) (b : Bool)
    (hnd : (wrapperClasses u).Nodup) : (wrapperClasses (applyTune u n b)).Nodup := by
  by_cases h : u.wrapper < u.store.length
  · rw [wrapperClasses_applyTune u n b h]
    exact nodup_classToggle hnd
  · have he : u.store[u.wrapper]? = none := List.getElem?_eq_none (Nat.le_of_not_lt h)
    simp [wrapperClasses, classesAtS, applyTune, updNode, he]


/-! ## Store-level congruence lemmas -/

theorem tagAtS_updNode (st : Store) (i : Nat) (f : Elem → Elem)
    (htag : ∀ e, (f e).tag = e.tag) (j : Nat) : tagAtS (updNode st i f) j = tagAtS st j := by
  by_cases hj : j = i
  · subst hj
    rw [tagAtS, updNode_getElem_self]
    cases he : st[j]? with
    | none => simp [tagAtS, he]
    | some e => simp [tagAtS, he, htag]
  · rw [tagAtS, updNode_getElem_ne _ _ _ _ (fun hh => hj hh.symm), tagAtS]

theorem childrenAtS_updNode (st : Store) (i : Nat) (f : Elem → Elem)
    (hch : ∀ e, (f e).children = e.children) (j : Nat) :
    childrenAtS (updNode st i f) j = childrenAtS st j := by
  by_cases hj : j = i
  · subst hj
    rw [childrenAtS, updNode_getElem_self]
    cases he : st[j]? with
    | none => simp [childrenAtS, he]
    | some e => simp [childrenAtS, he, hch]
  · rw [childrenAtS, updNode_getElem_ne _ _ _ _ (fun hh => hj hh.symm), childrenAtS]

theorem classesAtS_updNode_ne (st : Store) (i : Nat) (f : Elem → Elem) (j : Nat)
    (hij : i ≠ j) : classesAtS (updNode st i f) j = classesAtS st j := by
  rw [classesAtS, updNode_getElem_ne _ _ _ _ hij, classesAtS]

theorem isMediaS_updNode (st : Store) (i : Nat) (f : Elem → Elem)
    (htag : ∀ e, (f e).tag = e.tag) (j : Nat) : isMediaS (updNode st i f) j = isMediaS st j := by
  simp only [isMediaS, tagAtS_updNode st i f htag]

theorem tagAtS_append_lt (st l : Store) (j : Nat) (hj : j < st.length) :
    tagAtS (st ++ l) j = tagAtS st j := by
  rw [tagAtS, List.getElem?_append_left hj, tagAtS]

theorem childrenAtS_append_lt (st l : Store) (j : Nat) (hj : j < st.length) :
    childrenAtS (st ++ l) j = childrenAtS st j := by
  rw [childrenAtS, List.getElem?_append_left hj, childrenAtS]

theorem classesAtS_append_lt (st l : Store) (j : Nat) (hj : j < st.length) :
    classesAtS (st ++ l) j = classesAtS st j := by
  rw [classesAtS, List.getElem?_append_left hj, classesAtS]

theorem isMediaS_append_lt (st l : Store) (j : Nat) (hj : j < st.length) :
    isMediaS (st ++ l) j = isMediaS st j := by
  simp only [isMediaS, tagAtS_append_lt st l j hj]

theorem childrenAtS_updNode_self (st : Store) (i : Nat) (f : Elem → Elem) (e : Elem)
    (he : st[i]? = some e) : childrenAtS (updNode st i f) i = (f e).children := by
  rw [childrenAtS, updNode_getElem_self, he]
  rfl

/-! ## The reachable-state invariant -/

/-- Well-formedness of reachable widget states: the fixed node ids of the
skeleton, liveness of all referenced ids, duplicate-freedom of the tracked
token and child lists, the media invariant (the media elements attached to
the container are exactly the current `imageEl`, media-tagged and live),
media-tagged pending listeners, and detachment of the caption node. -/
structure WF (u : UiT) : Prop where
  wrapper_eq : u.wrapper = 0
  container_eq : u.imageContainer = 1
  button_eq : u.fileButton = 2
  preloader_eq : u.imagePreloader = 3
  caption_eq : u.caption = some 4
  store_len : 5 ≤ u.store.length
  wrapper_nodup : (classesAtS u.store 0).Nodup
  pending_ok : ∀ p ∈ u.pending, 5 ≤ p.1 ∧ p.1 < u.store.length ∧ isMediaS u.store p.1 = true
  children_lt : ∀ j ∈ childrenAtS u.store 1, j < u.store.length
  children_nodup : (childrenAtS u.store 1).Nodup
  media_mem : ∀ j ∈ childrenAtS u.store 1, isMediaS u.store j = true → u.imageEl = some j
  imageEl_mem : ∀ i, u.imageEl = some i →
    5 ≤ i ∧ i < u.store.length ∧ i ∈ childrenAtS u.store 1 ∧ isMediaS u.store i = true
  no_caption_child : ∀ j, (4 : Nat) ∉ childrenAtS u.store j

theorem WF_construct (cfg : Cfg) : WF (construct cfg) := by
  refine ⟨rfl, rfl, rfl, rfl, rfl, by simp [construct], ?nodup, ?pend, ?clt, ?cnd, ?mm,
    ?iem, ?ncc⟩
  case nodup =>
    have : classesAtS (construct cfg).store 0 =
        [cfg.stylesBlock, cssWrapper].foldl (fun l c => classAdd c l) [] := by
      simp [classesAtS, construct, make]
    rw [this]
    exact nodup_foldl_classAdd _ _ List.nodup_nil
  case pend => simp [construct]
  case clt =>
    intro j hj
    simp [childrenAtS, construct] at hj ⊢
    omega
  case cnd => simp [childrenAtS, construct]
  case mm =>
    intro j hj hm
    simp [childrenAtS, construct] at hj
    subst hj
    simp [isMediaS, tagAtS, construct, make] at hm
  case iem =>
    intro i hi
    simp [construct] at hi
  case ncc =>
    intro j
    rcases j with _ | _ | _ | _ | _ | j <;>
      simp [childrenAtS, construct, make, createFileButton]

/-- Any update of a single node that preserves its tag, its children and
duplicate-freedom of its class list preserves well-formedness. -/
theorem WF_updNode (u : UiT) (h : WF u) (i : Nat) (f : Elem → Elem)
    (htag : ∀ e, (f e).tag = e.tag)
    (hch : ∀ e, (f e).children = e.children)
    (hcls : ∀ e, e.classes.Nodup → (f e).classes.Nodup) :
    WF { u with store := updNode u.store i f } := by
  have htagA := tagAtS_updNode u.store i f htag
  have hchA := childrenAtS_updNode u.store i f hch
  have hmedA : ∀ j, isMediaS (updNode u.store i f) j = isMediaS u.store j :=
    isMediaS_updNode u.store i f htag
  have hlen : (updNode u.store i f).length = u.store.length := updNode_length _ _ _
  refine ⟨h.wrapper_eq, h.container_eq, h.button_eq, h.preloader_eq, h.caption_eq,
    ?len, ?nodup, ?pend, ?clt, ?cnd, ?mm, ?iem, ?ncc⟩
  case len =>
    show 5 ≤ (updNode u.store i f).length
    rw [hlen]
    exact h.store_len
  case nodup =>
    show (classesAtS (updNode u.store i f) 0).Nodup
    by_cases hi : i = 0
    · subst hi
      rw [classesAtS, updNode_getElem_self]
      cases he : u.store[0]? with
      | none => simp [he]
      | some e =>
          have hnd := h.wrapper_nodup
          rw [classesAtS, he] at hnd
          simpa [he] using hcls e hnd
    · rw [classesAtS_updNode_ne u.store i f 0 hi]
      exact h.wrapper_nodup
  case pend =>
    intro p hp
    obtain ⟨h5, hplt, hm⟩ := h.pending_ok p hp
    exact ⟨h5, by rw [hlen]; exact hplt, by rw [hmedA]; exact hm⟩
  case clt =>
    intro j hj
    rw [hchA] at hj
    rw [hlen]
    exact h.children_lt j hj
  case cnd =>
    show (childrenAtS (updNode u.store i f) 1).Nodup
    rw [hchA]
    exact h.children_nodup
  case mm =>
    intro j hj hm
    rw [hchA] at hj
    rw [hmedA] at hm
    exact h.media_mem j hj hm
  case iem =>
    intro k hk
    obtain ⟨h5, hklt, hkmem, hkm⟩ := h.imageEl_mem k hk
    exact ⟨h5, by rw [hlen]; exact hklt, by rw [hchA]; exact hkmem, by rw [hmedA]; exact hkm⟩
  case ncc =>
    intro j
    rw [hchA]
    exact h.no_caption_child j

theorem WF_toggleStatus (u : UiT) (h : WF u) (s : UiState) : WF (toggleStatus u s) := by
  rw [toggleStatus]
  refine WF_updNode u h u.wrapper _ ?tag ?ch ?cls
  case tag => intro e; rfl
  case ch => intro e; rfl
  case cls =>
    intro e he
    simp only [UiState.all, List.foldl_cons, List.foldl_nil]
    exact nodup_classToggle (nodup_classToggle (nodup_classToggle he))

theorem WF_applyTune (u : UiT) (h : WF u) (n : String) (b : Bool) : WF (applyTune u n b) := by
  rw [applyTune]
  refine WF_updNode u h u.wrapper _ ?tag ?ch ?cls
  case tag => intro e; rfl
  case ch => intro e; rfl
  case cls => intro e he; exact nodup_classToggle he

theorem WF_hidePreloader (u : UiT) (h : WF u) : WF (hidePreloader u) := by
  rw [hidePreloader]
  refine WF_toggleStatus _ ?inner UiState.Empty
  refine WF_updNode u h u.imagePreloader _ ?tag ?ch ?cls
  case tag => intro e; rfl
  case ch => intro e; rfl
  case cls => intro e he; exact he

theorem WF_congr {u v : UiT} (h : WF u) (he : u = v) : WF v := he ▸ h

theorem WF_fillCaption (u : UiT) (h : WF u) (text : String) : WF (fillCaption u text) := by
  refine WF_congr (WF_updNode u h 4 (fun e => { e with innerHTML := text })
    (fun e => rfl) (fun e => rfl) (fun e he => he)) ?eq
  simp [fillCaption, h.caption_eq]

theorem WF_clearImage (u : UiT) (h : WF u) : WF (clearImage u) := by
  cases him : u.imageEl with
  | none => simpa only [clearImage, him] using h
  | some img =>
      have h1 := WF_updNode u h img
        (fun e => { e with attrs := attrsSet "src" (AttrV.str "") e.attrs, styleDisplay := "none" })
        (fun e => rfl) (fun e => rfl) (fun e he => he)
      have h2 := WF_updNode _ h1 u.fileButton
        (fun e => { e with styleDisplay := "flex", stylePointerEvents := "auto" })
        (fun e => rfl) (fun e => rfl) (fun e he => he)
      refine WF_congr h2 ?eq
      simp [clearImage, him]

/-- Appending a fresh detached media-tagged element, updating the file button
in place (tag/children/class-nodup preserving) and registering a listener for
the fresh id preserves well-formedness. -/
theorem WF_extend (u : UiT) (h : WF u) (temp : Elem)
    (htag : temp.tag = "VIDEO" ∨ temp.tag = "IMG") (hchE : temp.children = [])
    (ev : String) (f : Elem → Elem)
    (hftag : ∀ e, (f e).tag = e.tag) (hfch : ∀ e, (f e).children = e.children)
    (hfcls : ∀ e, e.classes.Nodup → (f e).classes.Nodup) :
    WF { u with
        store := updNode (u.store ++ [temp]) u.fileButton f
        pending := u.pending ++ [(u.store.length, ev)] } := by
  have hL := h.store_len
  rw [h.button_eq]
  have htagA := tagAtS_updNode (u.store ++ [temp]) 2 f hftag
  have hchA := childrenAtS_updNode (u.store ++ [temp]) 2 f hfch
  have hmedA := isMediaS_updNode (u.store ++ [temp]) 2 f hftag
  have htagA' : ∀ j, j < u.store.length →
      tagAtS (updNode (u.store ++ [temp]) 2 f) j = tagAtS u.store j := by
    intro j hj
    rw [htagA, tagAtS_append_lt _ _ _ hj]
  have hchA' : ∀ j, j < u.store.length →
      childrenAtS (updNode (u.store ++ [temp]) 2 f) j = childrenAtS u.store j := by
    intro j hj
    rw [hchA, childrenAtS_append_lt _ _ _ hj]
  have hmedA' : ∀ j, j < u.store.length →
      isMediaS (updNode (u.store ++ [temp]) 2 f) j = isMediaS u.store j := by
    intro j hj
    rw [hmedA, isMediaS_append_lt _ _ _ hj]
  have happT : (u.store ++ [temp])[u.store.length]? = some temp := by
    simp [List.getElem?_concat_length]
  have htagT : tagAtS (updNode (u.store ++ [temp]) 2 f) u.store.length = temp.tag := by
    rw [htagA, tagAtS, happT]
    rfl
  have hchT : childrenAtS (updNode (u.store ++ [temp]) 2 f) u.store.length = [] := by
    rw [hchA, childrenAtS, happT]
    simpa using hchE
  have hlen : (updNode (u.store ++ [temp]) 2 f).length = u.store.length + 1 := by
    rw [updNode_length]
    simp
  refine ⟨h.wrapper_eq, h.container_eq, rfl, h.preloader_eq, h.caption_eq,
    ?len, ?nodup, ?pend, ?clt, ?cnd, ?mm, ?iem, ?ncc⟩
  case len =>
    show 5 ≤ (updNode (u.store ++ [temp]) 2 f).length
    rw [hlen]
    omega
  case nodup =>
    show (classesAtS (updNode (u.store ++ [temp]) 2 f) 0).Nodup
    rw [classesAtS_updNode_ne _ _ _ _ (by omega), classesAtS_append_lt _ _ _ (by omega)]
    exact h.wrapper_nodup
  case pend =>
    intro p hp
    rcases List.mem_append.mp hp with hp | hp
    · obtain ⟨h5, hplt, hm⟩ := h.pending_ok p hp
      refine ⟨h5, by rw [hlen]; omega, ?pmed1⟩
      case pmed1 =>
        rw [hmedA' _ hplt]
        exact hm
    · rw [List.mem_singleton] at hp
      subst hp
      refine ⟨by simpa using hL, by rw [hlen]; omega, ?pmed2⟩
      show isMediaS _ u.store.length = true
      rcases htag with hV | hI
      · simp [isMediaS, htagT, hV]
      · simp [isMediaS, htagT, hI]
  case clt =>
    intro j hj
    rw [hchA' _ (by omega)] at hj
    have := h.children_lt j hj
    rw [hlen]
    omega
  case cnd =>
    show (childrenAtS (updNode (u.store ++ [temp]) 2 f) 1).Nodup
    rw [hchA' _ (by omega)]
    exact h.children_nodup
  case mm =>
    intro j hj hm
    rw [hchA' _ (by omega)] at hj
    rw [hmedA' _ (h.children_lt j hj)] at hm
    exact h.media_mem j hj hm
  case iem =>
    intro k hk
    obtain ⟨h5, hklt, hkmem, hkm⟩ := h.imageEl_mem k hk
    refine ⟨h5, by rw [hlen]; omega, ?imem, ?imed⟩
    case imem =>
      rw [hchA' _ (by omega)]
      exact hkmem
    case imed =>
      rw [hmedA' _ hklt]
      exact hkm
  case ncc =>
    intro j
    by_cases hjlt : j < u.store.length
    · rw [hchA' _ hjlt]
      exact h.no_caption_child j
    · by_cases hje : j = u.store.length
      · subst hje
        rw [hchT]
        simp
      · have hnone : (updNode (u.store ++ [temp]) 2 f)[j]? = none := by
          refine List.getElem?_eq_none ?hlen
          rw [hlen]
          omega
        simp [childrenAtS, hnone]

theorem WF_fillImage (u : UiT) (h : WF u) (url : String) : WF (fillImage u url) := by
  cases hv : strEndsWith url ".mp4" with
  | true =>
      refine WF_congr (WF_extend u h
        (make "VIDEO" [cssImageEl]
          [("src", AttrV.str url), ("autoplay", AttrV.bool true), ("loop", AttrV.bool true),
            ("muted", AttrV.bool true), ("playsinline", AttrV.bool true)])
        (Or.inl rfl) rfl "loadeddata"
        (fun e => { e with styleDisplay := "none", stylePointerEvents := "none" })
        (fun e => rfl) (fun e => rfl) (fun e he => he)) ?eq1
      case eq1 => simp [fillImage, hv]
  | false =>
      refine WF_congr (WF_extend u h
        (make "IMG" [cssImageEl] [("src", AttrV.str url)])
        (Or.inr rfl) rfl "load"
        (fun e => { e with styleDisplay := "none", stylePointerEvents := "none" })
        (fun e => rfl) (fun e => rfl) (fun e he => he)) ?eq2
      case eq2 => simp [fillImage, hv]

theorem updNode_updNode (st : Store) (i : Nat) (f g : Elem → Elem) :
    updNode (updNode st i f) i g = updNode st i (fun e => g (f e)) := by
  cases he : st[i]? with
  | none => simp [updNode, he]
  | some e =>
      have hi : i < st.length := by
        by_contra hc
        rw [List.getElem?_eq_none (Nat.le_of_not_lt hc)] at he
        exact Option.noConfusion he
      simp [updNode, he, List.getElem?_set_self, hi, List.set_set]

/-- Swapping a live media-tagged element `t` into the container — after an
arbitrary pruning `φ` of the current children that keeps only ids that were
already present, stays duplicate-free and drops every media id — preserves
well-formedness, with `imageEl` pointing at `t`. -/
theorem WF_attach (u : UiT) (h : WF u) (t : Nat) (ht5 : 5 ≤ t) (htlt : t < u.store.length)
    (htm : isMediaS u.store t = true) (φ : List Nat → List Nat)
    (hφ : ∀ j ∈ φ (childrenAtS u.store 1), j ∈ childrenAtS u.store 1)
    (hφnd : (φ (childrenAtS u.store 1)).Nodup)
    (hφnm : ∀ j ∈ φ (childrenAtS u.store 1), isMediaS u.store j = false) :
    WF { u with
        store := updNode u.store u.imageContainer
          (fun e => { e with children := (φ e.children).erase t ++ [t] })
        imageEl := some t } := by
  rw [h.container_eq]
  have h1lt : 1 < u.store.length := by
    have := h.store_len
    omega
  obtain ⟨e, he⟩ : ∃ e, u.store[1]? = some e := ⟨_, List.getElem?_eq_getElem h1lt⟩
  have hc : childrenAtS u.store 1 = e.children := by simp [childrenAtS, he]
  have hch1 : childrenAtS (updNode u.store 1
      (fun e => { e with children := (φ e.children).erase t ++ [t] })) 1 =
      (φ e.children).erase t ++ [t] :=
    childrenAtS_updNode_self u.store 1 _ e he
  have hchne : ∀ j, j ≠ 1 → childrenAtS (updNode u.store 1
      (fun e => { e with children := (φ e.children).erase t ++ [t] })) j =
      childrenAtS u.store j :=
    fun j hj => by
      rw [childrenAtS, updNode_getElem_ne _ _ _ _ (fun hh => hj hh.symm), childrenAtS]
  have htagA := tagAtS_updNode u.store 1
    (fun e => { e with children := (φ e.children).erase t ++ [t] }) (fun e => rfl)
  have hmedA := isMediaS_updNode u.store 1
    (fun e => { e with children := (φ e.children).erase t ++ [t] }) (fun e => rfl)
  have hlen : (updNode u.store 1
      (fun e => { e with children := (φ e.children).erase t ++ [t] })).length =
      u.store.length := updNode_length _ _ _
  have hnde : (φ e.children).Nodup := by
    rw [hc] at hφnd
    exact hφnd
  have htne : t ∉ (φ e.children).erase t := by
    intro hmem
    exact absurd (hnde.mem_erase_iff.mp hmem).1 (by simp)
  refine ⟨h.wrapper_eq, rfl, h.button_eq, h.preloader_eq, h.caption_eq,
    ?len, ?nodup, ?pend, ?clt, ?cnd, ?mm, ?iem, ?ncc⟩
  case len =>
    show 5 ≤ _
    rw [hlen]
    exact h.store_len
  case nodup =>
    show (classesAtS _ 0).Nodup
    rw [classesAtS, updNode_getElem_ne _ _ _ _ (by omega), ← classesAtS]
    exact h.wrapper_nodup
  case pend =>
    intro p hp
    obtain ⟨h5, hplt, hm⟩ := h.pending_ok p hp
    exact ⟨h5, by rw [hlen]; exact hplt, by rw [hmedA]; exact hm⟩
  case clt =>
    intro j hj
    rw [hch1] at hj
    rw [hlen]
    rcases List.mem_append.mp hj with hj | hj
    · have hj' : j ∈ φ e.children := List.erase_subset _ _ hj
      have : j ∈ childrenAtS u.store 1 := hφ j (by rw [hc]; exact hj')
      exact h.children_lt j this
    · rw [List.mem_singleton] at hj
      subst hj
      exact htlt
  case cnd =>
    show (childrenAtS _ 1).Nodup
    rw [hch1]
    refine (hnde.erase t).append (List.nodup_singleton t) ?disj
    intro x hx hx'
    rw [List.mem_singleton] at hx'
    subst hx'
    exact htne hx
  case mm =>
    intro j hj hm
    rw [hch1] at hj
    rcases List.mem_append.mp hj with hj | hj
    · have hj' : j ∈ φ e.children := List.erase_subset _ _ hj
      have hf : isMediaS u.store j = false := hφnm j (by rw [hc]; exact hj')
      rw [hmedA] at hm
      rw [hm] at hf
      exact Bool.noConfusion hf
    · rw [List.mem_singleton] at hj
      subst hj
      rfl
  case iem =>
    intro k hk
    obtain rfl : t = k := Option.some_inj.mp hk
    refine ⟨ht5, by rw [hlen]; exact htlt, ?mem, ?med⟩
    case mem =>
      rw [hch1]
      exact List.mem_append_right _ (List.mem_singleton_self t)
    case med =>
      rw [hmedA]
      exact htm
  case ncc =>
    intro j
    by_cases hj : j = 1
    · subst hj
      rw [hch1]
      intro hmem
      rcases List.mem_append.mp hmem with hmem | hmem
      · have : (4 : Nat) ∈ φ e.children := List.erase_subset _ _ hmem
        exact h.no_caption_child 1 (hφ 4 (by rw [hc]; exact this))
      · rw [List.mem_singleton] at hmem
        omega
    · rw [hchne j hj]
      exact h.no_caption_child j

theorem toggleStatus_imagePreloader (u : UiT) (s : UiState) :
    (toggleStatus u s).imagePreloader = u.imagePreloader := rfl

theorem toggleStatus_wrapper (u : UiT) (s : UiState) :
    (toggleStatus u s).wrapper = u.wrapper := rfl

theorem toggleStatus_imageContainer (u : UiT) (s : UiState) :
    (toggleStatus u s).imageContainer = u.imageContainer := rfl

theorem toggleStatus_fileButton (u : UiT) (s : UiState) :
    (toggleStatus u s).fileButton = u.fileButton := rfl

theorem toggleStatus_caption (u : UiT) (s : UiState) :
    (toggleStatus u s).caption = u.caption := rfl

theorem toggleStatus_imageEl (u : UiT) (s : UiState) :
    (toggleStatus u s).imageEl = u.imageEl := rfl

theorem toggleStatus_pending (u : UiT) (s : UiState) :
    (toggleStatus u s).pending = u.pending := rfl

theorem toggleStatus_cfg (u : UiT) (s : UiState) :
    (toggleStatus u s).cfg = u.cfg := rfl

theorem WF_fireHandler (u : UiT) (h : WF u) (t : Nat) (ht5 : 5 ≤ t)
    (htlt : t < u.store.length) (htm : isMediaS u.store t = true) :
    WF (fireHandler u t) := by
  cases him : u.imageEl with
  | none =>
      have h3 := WF_attach u h t ht5 htlt htm (fun l => l)
        (fun j hj => hj) h.children_nodup
        (fun j hj => by
          cases hm : isMediaS u.store j with
          | false => rfl
          | true => exact absurd (him ▸ h.media_mem j hj hm) (by simp))
      have h4 := WF_toggleStatus _ h3 UiState.Filled
      have h5 := WF_updNode _ h4 u.imagePreloader
        (fun e => { e with styleBackgroundImage := "" })
        (fun e => rfl) (fun e => rfl) (fun e he => he)
      refine WF_congr h5 ?eqn
      simp [fireHandler, him, toggleStatus_imagePreloader, toggleStatus_wrapper,
        toggleStatus_imageContainer, toggleStatus_fileButton, toggleStatus_caption,
        toggleStatus_imageEl, toggleStatus_pending, toggleStatus_cfg]
  | some old =>
      have h3 := WF_attach u h t ht5 htlt htm (fun l => l.erase old)
        (fun j hj => List.erase_subset _ _ hj) (h.children_nodup.erase old)
        (fun j hj => by
          cases hm : isMediaS u.store j with
          | false => rfl
          | true =>
              have hj' : j ∈ childrenAtS u.store 1 := List.erase_subset _ _ hj
              have := h.media_mem j hj' hm
              rw [him] at this
              obtain rfl : old = j := Option.some_inj.mp this
              exact absurd (h.children_nodup.mem_erase_iff.mp hj).1 (by simp))
      have h4 := WF_toggleStatus _ h3 UiState.Filled
      have h5 := WF_updNode _ h4 u.imagePreloader
        (fun e => { e with styleBackgroundImage := "" })
        (fun e => rfl) (fun e => rfl) (fun e he => he)
      refine WF_congr h5 ?eqo
      simp [fireHandler, him, updNode_updNode, toggleStatus_imagePreloader, toggleStatus_wrapper,
        toggleStatus_imageContainer, toggleStatus_fileButton, toggleStatus_caption,
        toggleStatus_imageEl, toggleStatus_pending, toggleStatus_cfg]

theorem WF_fireReady (u : UiT) (h : WF u) (i : Nat) : WF (fireReady u i) := by
  cases hp : u.pending[i]? with
  | none => simpa [fireReady, hp] using h
  | some p =>
      obtain ⟨h5, hlt, hm⟩ := h.pending_ok p (List.getElem?_mem hp)
      simpa [fireReady, hp] using WF_fireHandler u h p.1 h5 hlt hm

theorem WF_render_fst (u : UiT) (h : WF u) (td : ToolData) : WF (u.render td).1 := by
  cases hf : td.file with
  | none => simpa [render, hf] using WF_toggleStatus u h UiState.Empty
  | some file =>
      by_cases hl : file.length = 0
      · simpa [render, hf, hl] using WF_toggleStatus u h UiState.Empty
      · simpa [render, hf, hl] using WF_fillImage u h (fileUrl file)

theorem WF_applyOp (u : UiT) (h : WF u) (op : Op) : WF (applyOp u op) := by
  cases op with
  | render td => exact WF_render_fst u h td
  | hidePreloader => exact WF_hidePreloader u h
  | fillImage url => exact WF_fillImage u h url
  | fillCaption text => exact WF_fillCaption u h text
  | clearImage => exact WF_clearImage u h
  | applyTune n b => exact WF_applyTune u h n b
  | fireReady i => exact WF_fireReady u h i

theorem WF_run (u : UiT) (h : WF u) (ops : List Op) : WF (run u ops) := by
  induction ops generalizing u with
  | nil => simpa [run] using h
  | cons op rest ih => simpa [run, List.foldl_cons] using ih (applyOp u op) (WF_applyOp u h op)


/-! ## Derived facts about well-formed states -/

/-- In a well-formed state the attached media children are exactly the
current `imageEl`. -/
theorem mediaChildren_of_WF (u : UiT) (h : WF u) :
    mediaChildren u = (match u.imageEl with | some i => [i] | none => []) := by
  rw [mediaChildren, childrenOf, h.container_eq]
  cases him : u.imageEl with
  | none =>
      rw [List.filter_eq_nil_iff]
      intro j hj hm
      have := h.media_mem j hj (by simpa using hm)
      rw [him] at this
      exact Option.noConfusion this
  | some i =>
      obtain ⟨h5, hlt, hmem, hmed⟩ := h.imageEl_mem i him
      refine filter_eq_singleton h.children_nodup hmem (by simpa using hmed) ?all
      intro j hj hpj
      have := h.media_mem j hj (by simpa using hpj)
      rw [him] at this
      exact (Option.some_inj.mp this).symm

theorem statePresent_iff_of_classes {u v : UiT}
    (h : classesAtS u.store u.wrapper = classesAtS v.store v.wrapper) (s : UiState) :
    statePresent u s ↔ statePresent v s := by
  rw [statePresent, statePresent, wrapperClasses, wrapperClasses, h]

theorem presentStates_congr {u v : UiT}
    (h : ∀ s, statePresent u s ↔ statePresent v s) : presentStates u = presentStates v := by
  rw [presentStates, presentStates]
  refine List.filter_congr ?pt
  intro s hs
  simp only [decide_eq_decide]
  exact h s

/-- After `toggleStatus u s` on a well-formed wrapper, the present state
modifiers are exactly `[s]`. -/
theorem presentStates_toggleStatus (u : UiT) (hnd : (wrapperClasses u).Nodup)
    (hlt : u.wrapper < u.store.length) (s : UiState) :
    presentStates (toggleStatus u s) = [s] := by
  rw [presentStates]
  have hk := statePresent_toggleStatus u hnd hlt s
  cases s <;>
    simp [UiState.all, List.filter_cons, hk UiState.Empty, hk UiState.Uploading,
      hk UiState.Filled]

theorem presentStates_fillImage (u : UiT) (h : WF u) (url : String) :
    presentStates (fillImage u url) = presentStates u := by
  refine presentStates_congr (fun s => statePresent_iff_of_classes ?eqc s)
  have hwlt : u.wrapper < u.store.length := by
    have := h.store_len
    rw [h.wrapper_eq]
    omega
  have hwne : u.fileButton ≠ u.wrapper := by
    rw [h.button_eq, h.wrapper_eq]
    omega
  show classesAtS _ u.wrapper = classesAtS u.store u.wrapper
  simp only [fillImage]
  rw [classesAtS_updNode_ne _ _ _ _ hwne, classesAtS_append_lt _ _ _ hwlt]

theorem presentStates_fillCaption (u : UiT) (h : WF u) (text : String) :
    presentStates (fillCaption u text) = presentStates u := by
  refine presentStates_congr (fun s => statePresent_iff_of_classes ?eqc s)
  have hcne : (4 : Nat) ≠ u.wrapper := by
    rw [h.wrapper_eq]
    omega
  show classesAtS _ _ = classesAtS u.store u.wrapper
  simp only [fillCaption, h.caption_eq]
  rw [classesAtS_updNode_ne _ _ _ _ hcne]

theorem presentStates_clearImage (u : UiT) (h : WF u) :
    presentStates (clearImage u) = presentStates u := by
  cases him : u.imageEl with
  | none => simp [clearImage, him]
  | some img =>
      obtain ⟨h5, hlt, hmem, hmed⟩ := h.imageEl_mem img him
      have hine : img ≠ u.wrapper := by
        rw [h.wrapper_eq]
        omega
      have hbne : u.fileButton ≠ u.wrapper := by
        rw [h.button_eq, h.wrapper_eq]
        omega
      refine presentStates_congr (fun s => statePresent_iff_of_classes ?eqc s)
      show classesAtS _ _ = classesAtS u.store u.wrapper
      simp only [clearImage, him]
      rw [classesAtS_updNode_ne _ _ _ _ hbne, classesAtS_updNode_ne _ _ _ _ hine]

theorem presentStates_applyTune (u : UiT) (h : WF u) (n : String) (b : Bool)
    (hok : tuneOk (Op.applyTune n b)) : presentStates (applyTune u n b) = presentStates u := by
  have hwlt : u.wrapper < u.store.length := by
    have := h.store_len
    rw [h.wrapper_eq]
    omega
  obtain ⟨h1, h2, h3⟩ := hok
  refine presentStates_congr (fun s => ?iff)
  rw [statePresent, statePresent, wrapperClasses_applyTune u n b hwlt]
  cases s with
  | Empty => exact mem_classToggle_ne (Ne.symm h1) b (wrapperClasses u)
  | Uploading => exact mem_classToggle_ne (Ne.symm h2) b (wrapperClasses u)
  | Filled => exact mem_classToggle_ne (Ne.symm h3) b (wrapperClasses u)

theorem presentStates_hidePreloader (u : UiT) (h : WF u) :
    presentStates (hidePreloader u) = [UiState.Empty] := by
  rw [hidePreloader]
  have hpne : u.imagePreloader ≠ u.wrapper := by
    rw [h.preloader_eq, h.wrapper_eq]
    omega
  have hcls : classesAtS (updNode u.store u.imagePreloader
      (fun e => { e with styleBackgroundImage := "" })) u.wrapper =
      classesAtS u.store u.wrapper := classesAtS_updNode_ne _ _ _ _ hpne
  have hnd : (wrapperClasses { u with store := updNode u.store u.imagePreloader (fun e => { e with styleBackgroundImage := "" }) }).Nodup := by
    show (classesAtS _ u.wrapper).Nodup
    rw [hcls, h.wrapper_eq]
    exact h.wrapper_nodup
  have hwlt : u.wrapper < (updNode u.store u.imagePreloader
      (fun e => { e with styleBackgroundImage := "" })).length := by
    rw [updNode_length]
    have := h.store_len
    rw [h.wrapper_eq]
    omega
  exact presentStates_toggleStatus _ hnd hwlt UiState.Empty

theorem presentStates_eq_of_classes (u v : UiT)
    (h : classesAtS u.store u.wrapper = classesAtS v.store v.wrapper) :
    presentStates u = presentStates v :=
  presentStates_congr (fun s => statePresent_iff_of_classes h s)

theorem presentStates_toggle_then_bg (v : UiT) (hnd : (wrapperClasses v).Nodup)
    (hwlt : v.wrapper < v.store.length) (hpne : v.imagePreloader ≠ v.wrapper) (s : UiState) :
    presentStates { toggleStatus v s with store := updNode (toggleStatus v s).store (toggleStatus v s).imagePreloader (fun e => { e with styleBackgroundImage := "" }) } = [s] := by
  refine Eq.trans (presentStates_eq_of_classes _ _ ?c) (presentStates_toggleStatus v hnd hwlt s)
  refine classesAtS_updNode_ne _ _ _ _ ?ne
  exact hpne

theorem presentStates_fireHandler (u : UiT) (h : WF u) (t : Nat) :
    presentStates (fireHandler u t) = [UiState.Filled] := by
  have hwlt : u.wrapper < u.store.length := by
    have := h.store_len
    rw [h.wrapper_eq]
    omega
  have hcne : u.imageContainer ≠ u.wrapper := by
    rw [h.container_eq, h.wrapper_eq]
    omega
  have hpne : u.imagePreloader ≠ u.wrapper := by
    rw [h.preloader_eq, h.wrapper_eq]
    omega
  have hclsg : ∀ g : Elem → Elem,
      (classesAtS (updNode u.store u.imageContainer g) u.wrapper).Nodup := by
    intro g
    rw [classesAtS_updNode_ne _ _ _ _ hcne, h.wrapper_eq]
    exact h.wrapper_nodup
  have hltg : ∀ g : Elem → Elem, u.wrapper < (updNode u.store u.imageContainer g).length := by
    intro g
    rw [updNode_length]
    exact hwlt
  cases him : u.imageEl with
  | none =>
      simp only [fireHandler, him]
      refine presentStates_toggle_then_bg _ ?nd1 ?lt1 ?pne1 UiState.Filled
      case nd1 => exact hclsg _
      case lt1 => exact hltg _
      case pne1 => exact hpne
  | some old =>
      simp only [fireHandler, him]
      refine presentStates_toggle_then_bg _ ?nd2 ?lt2 ?pne2 UiState.Filled
      case nd2 =>
        show (classesAtS (updNode (updNode u.store u.imageContainer _) u.imageContainer _) u.wrapper).Nodup
        rw [updNode_updNode]
        exact hclsg _
      case lt2 =>
        show u.wrapper < (updNode (updNode u.store u.imageContainer _) u.imageContainer _).length
        rw [updNode_updNode]
        exact hltg _
      case pne2 => exact hpne

theorem presentStates_fireReady_none (u : UiT) (i : Nat) (hp : u.pending[i]? = none) :
    presentStates (fireReady u i) = presentStates u := by
  simp [fireReady, hp]

theorem presentStates_fireReady_some (u : UiT) (h : WF u) (i : Nat) (p : Nat × String)
    (hp : u.pending[i]? = some p) :
    presentStates (fireReady u i) = [UiState.Filled] := by
  rw [show fireReady u i = fireHandler u p.1 by simp [fireReady, hp]]
  exact presentStates_fireHandler u h p.1

theorem presentStates_render_empty (u : UiT) (h : WF u) (td : ToolData)
    (hf : td.file = none ∨ td.file = some []) :
    presentStates (u.render td).1 = [UiState.Empty] := by
  have hwlt : u.wrapper < u.store.length := by
    have := h.store_len
    rw [h.wrapper_eq]
    omega
  have hnd : (wrapperClasses u).Nodup := by
    show (classesAtS u.store u.wrapper).Nodup
    rw [h.wrapper_eq]
    exact h.wrapper_nodup
  rcases hf with hf | hf <;> simp only [render, hf] <;>
    simpa using presentStates_toggleStatus u hnd hwlt UiState.Empty

theorem presentStates_render_nonempty (u : UiT) (h : WF u) (td : ToolData)
    (file : List (String × String)) (hf : td.file = some file) (hne : file.length ≠ 0) :
    presentStates (u.render td).1 = presentStates u := by
  simp only [render, hf, if_neg hne]
  exact presentStates_fillImage u h (fileUrl file)

theorem c4_step (u : UiT) (h : WF u) (op : Op) (hok : tuneOk op) :
    presentStates (applyOp u op) = presentStates u ∨
      (presentStates (applyOp u op)).length = 1 := by
  cases op with
  | render td =>
      cases hf : td.file with
      | none =>
          right
          rw [show applyOp u (Op.render td) = (u.render td).1 from rfl,
            presentStates_render_empty u h td (Or.inl hf)]
          rfl
      | some file =>
          by_cases hl : file.length = 0
          · right
            have hf' : td.file = some [] := by
              rw [hf, List.length_eq_zero.mp hl]
            rw [show applyOp u (Op.render td) = (u.render td).1 from rfl,
              presentStates_render_empty u h td (Or.inr hf')]
            rfl
          · left
            exact presentStates_render_nonempty u h td file hf hl
  | hidePreloader =>
      right
      rw [show applyOp u Op.hidePreloader = u.hidePreloader from rfl,
        presentStates_hidePreloader u h]
      rfl
  | fillImage url => exact Or.inl (presentStates_fillImage u h url)
  | fillCaption text => exact Or.inl (presentStates_fillCaption u h text)
  | clearImage => exact Or.inl (presentStates_clearImage u h)
  | applyTune n b => exact Or.inl (presentStates_applyTune u h n b hok)
  | fireReady i =>
      cases hp : u.pending[i]? with
      | none => exact Or.inl (presentStates_fireReady_none u i hp)
      | some p =>
          right
          rw [show applyOp u (Op.fireReady i) = u.fireReady i from rfl,
            presentStates_fireReady_some u h i p hp]
          rfl

theorem c4_force (u : UiT) (h : WF u) (op : Op) (hf : forcesStatus op) :
    (presentStates (applyOp u op)).length = 1 := by
  cases op with
  | render td =>
      rw [show applyOp u (Op.render td) = (u.render td).1 from rfl,
        presentStates_render_empty u h td hf]
      rfl
  | hidePreloader =>
      rw [show applyOp u Op.hidePreloader = u.hidePreloader from rfl,
        presentStates_hidePreloader u h]
      rfl
  | fillImage url => exact absurd hf (by simp [forcesStatus])
  | fillCaption text => exact absurd hf (by simp [forcesStatus])
  | clearImage => exact absurd hf (by simp [forcesStatus])
  | applyTune n b => exact absurd hf (by simp [forcesStatus])
  | fireReady i => exact absurd hf (by simp [forcesStatus])

theorem c4_run (u : UiT) (h : WF u) (ops : List Op) (htune : ∀ op ∈ ops, tuneOk op)
    (hbase : (presentStates u).length ≤ 1) :
    (presentStates (run u ops)).length ≤ 1 ∧
      (((presentStates u).length = 1 ∨ ∃ op ∈ ops, forcesStatus op) →
        (presentStates (run u ops)).length = 1) := by
  induction ops generalizing u with
  | nil =>
      refine ⟨by simpa [run] using hbase, ?one⟩
      rintro (hone | ⟨op, hop, _⟩)
      · simpa [run] using hone
      · cases hop
  | cons op rest ih =>
      have hok : tuneOk op := htune op (List.mem_cons_self op rest)
      have hWF' : WF (applyOp u op) := WF_applyOp u h op
      have hbase' : (presentStates (applyOp u op)).length ≤ 1 := by
        rcases c4_step u h op hok with heq | hone
        · rw [heq]
          exact hbase
        · omega
      have hrun : run u (op :: rest) = run (applyOp u op) rest := by
        simp [run]
      obtain ⟨ihle, ihone⟩ := ih (applyOp u op) hWF'
        (fun op' hop' => htune op' (List.mem_cons_of_mem op hop')) hbase'
      refine ⟨by rw [hrun]; exact ihle, ?one2⟩
      rintro (hone | ⟨op', hop', hforce⟩)
      · rw [hrun]
        refine ihone (Or.inl ?this)
        rcases c4_step u h op hok with heq | h1
        · rw [heq]
          exact hone
        · exact h1
      · rcases List.mem_cons.mp hop' with rfl | hop'
        · rw [hrun]
          exact ihone (Or.inl (c4_force u h op' hforce))
        · rw [hrun]
          exact ihone (Or.inr ⟨op', hop', hforce⟩)


/-! ## Remaining supporting lemmas -/

theorem childrenOf_toggleStatus (u : UiT) (s : UiState) (j : Nat) :
    childrenOf (toggleStatus u s) j = childrenOf u j := by
  show childrenAtS _ j = childrenAtS u.store j
  refine childrenAtS_updNode _ _ _ ?hch j
  intro e
  rfl

theorem imageEl_fireHandler (u : UiT) (t : Nat) : (fireHandler u t).imageEl = some t := by
  cases him : u.imageEl <;> rfl

theorem lookup_attrsSet_self (k : String) (v : AttrV) (m : List (String × AttrV)) :
    (attrsSet k v m).lookup k = some v := by
  induction m with
  | nil => simp [attrsSet, List.lookup]
  | cons kv rest ih =>
      obtain ⟨k', v'⟩ := kv
      by_cases hk : k' = k
      · simp [attrsSet, hk, List.lookup]
      · have hbk : (k == k') = false := by
          simp [hk]
          intro hh
          exact hk hh.symm
        simp [attrsSet, hk, List.lookup, hbk, ih]

theorem not_Desc_of_no_child (u : UiT) (h : ∀ j, (4 : Nat) ∉ childrenOf u j) :
    ∀ a b, Desc u a b → b ≠ 4 := by
  intro a b hd
  induction hd with
  | child hb =>
      intro hb4
      subst hb4
      exact absurd (by assumption) (h _)
  | step hb hd ih => exact ih

/-! ## The claims -/

/-- Claim C1: for every reachable widget state and every `toolData` whose file
descriptor is absent or an empty mapping, `render` returns the wrapper
element, puts the wrapper into Empty-state styling (the `empty` modifier is
the only `UiState` modifier present), and attaches no media element: every
children list, and the `imageEl` handle, are unchanged. -/
theorem c1_render_empty_state (cfg : Cfg) (ops : List Op) (td : ToolData)
    (hf : td.file = none ∨ td.file = some []) :
    ((run (construct cfg) ops).render td).2 = (run (construct cfg) ops).wrapper ∧
    presentStates ((run (construct cfg) ops).render td).1 = [UiState.Empty] ∧
    (∀ j, childrenOf ((run (construct cfg) ops).render td).1 j =
      childrenOf (run (construct cfg) ops) j) ∧
    ((run (construct cfg) ops).render td).1.imageEl = (run (construct cfg) ops).imageEl := by
  have h := WF_run _ (WF_construct cfg) ops
  refine ⟨?snd, presentStates_render_empty _ h td hf, ?ch, ?img⟩
  case snd => rcases hf with hf | hf <;> simp [render, hf]
  case ch =>
    intro j
    rcases hf with hf | hf <;> simp only [render, hf] <;>
      simpa using childrenOf_toggleStatus _ UiState.Empty j
  case img => rcases hf with hf | hf <;> simp [render, hf, toggleStatus_imageEl]

/-- Claim C1 witness: a freshly constructed widget rendered with absent file data. -/
theorem c1_render_empty_state_witness :
    ({ file := none, caption := none } : ToolData).file = none ∧
    presentStates ((run (construct cfgDemo) []).render
      { file := none, caption := none }).1 = [UiState.Empty] :=
  ⟨rfl, (c1_render_empty_state cfgDemo [] { file := none, caption := none }
    (Or.inl rfl)).2.1⟩

/-- Claim C2: `showMedia`/`fillImage` selects the media kind by the url suffix: the
freshly built element is a video element iff the url ends in `.mp4`, in which
case it carries the autoplay/loop/muted/playsinline attributes and its
listener waits on `loadeddata`; otherwise it is an image element without
those attributes, waiting on `load`; in both cases its `src` is the url. -/
theorem c2_showMedia_kind (cfg : Cfg) (ops : List Op) (url : String) :
    (tagAt (fillImage (run (construct cfg) ops) url) (run (construct cfg) ops).store.length =
        "VIDEO" ↔ strEndsWith url ".mp4" = true) ∧
    (tagAt (fillImage (run (construct cfg) ops) url) (run (construct cfg) ops).store.length =
        "IMG" ↔ strEndsWith url ".mp4" = false) ∧
    attrOf (fillImage (run (construct cfg) ops) url) (run (construct cfg) ops).store.length
        "src" = some (AttrV.str url) ∧
    (strEndsWith url ".mp4" = true →
      attrOf (fillImage (run (construct cfg) ops) url) (run (construct cfg) ops).store.length
          "autoplay" = some (AttrV.bool true) ∧
      attrOf (fillImage (run (construct cfg) ops) url) (run (construct cfg) ops).store.length
          "loop" = some (AttrV.bool true) ∧
      attrOf (fillImage (run (construct cfg) ops) url) (run (construct cfg) ops).store.length
          "muted" = some (AttrV.bool true) ∧
      attrOf (fillImage (run (construct cfg) ops) url) (run (construct cfg) ops).store.length
          "playsinline" = some (AttrV.bool true) ∧
      (fillImage (run (construct cfg) ops) url).pending =
        (run (construct cfg) ops).pending ++
          [((run (construct cfg) ops).store.length, "loadeddata")]) ∧
    (strEndsWith url ".mp4" = false →
      attrOf (fillImage (run (construct cfg) ops) url) (run (construct cfg) ops).store.length
          "autoplay" = none ∧
      attrOf (fillImage (run (construct cfg) ops) url) (run (construct cfg) ops).store.length
          "playsinline" = none ∧
      (fillImage (run (construct cfg) ops) url).pending =
        (run (construct cfg) ops).pending ++
          [((run (construct cfg) ops).store.length, "load")]) := by
  have h := WF_run _ (WF_construct cfg) ops
  have hbne : (run (construct cfg) ops).fileButton ≠ (run (construct cfg) ops).store.length := by
    have := h.store_len
    rw [h.button_eq]
    omega
  have hnode : ∀ (temp : Elem) (f : Elem → Elem),
      (updNode ((run (construct cfg) ops).store ++ [temp])
        (run (construct cfg) ops).fileButton f)[(run (construct cfg) ops).store.length]? =
        some temp := by
    intro temp f
    rw [updNode_getElem_ne _ _ _ _ hbne]
    simp [List.getElem?_concat_length]
  cases hv : strEndsWith url ".mp4" with
  | true =>
      refine ⟨?t1, ?t2, ?t3, ?t4, ?t5⟩
      case t1 => simp [fillImage, hv, tagAt, tagAtS, hnode, make]
      case t2 => simp [fillImage, hv, tagAt, tagAtS, hnode, make]
      case t3 => simp [fillImage, hv, attrOf, hnode, make, attrsSet, List.lookup]
      case t4 =>
        intro hh
        refine ⟨?_, ?_, ?_, ?_, ?_⟩ <;>
          simp [fillImage, hv, attrOf, hnode, make, attrsSet, List.lookup]
      case t5 =>
        intro hh
        exact Bool.noConfusion hh
  | false =>
      refine ⟨?f1, ?f2, ?f3, ?f4, ?f5⟩
      case f1 => simp [fillImage, hv, tagAt, tagAtS, hnode, make]
      case f2 => simp [fillImage, hv, tagAt, tagAtS, hnode, make]
      case f3 => simp [fillImage, hv, attrOf, hnode, make, attrsSet, List.lookup]
      case f4 =>
        intro hh
        exact Bool.noConfusion hh
      case f5 =>
        intro hh
        refine ⟨?_, ?_, ?_⟩ <;>
          simp [fillImage, hv, attrOf, hnode, make, attrsSet, List.lookup]

/-- Claim C2 witness: a fresh widget showing an `.mp4` url builds a video element
with the video attributes, and a `.png` url builds an image element. -/
theorem c2_showMedia_kind_witness :
    (strEndsWith "https://x/b.mp4" ".mp4" = true ∧
      attrOf (fillImage (run (construct cfgDemo) []) "https://x/b.mp4")
        (run (construct cfgDemo) []).store.length "autoplay" = some (AttrV.bool true)) ∧
    (strEndsWith "https://x/a.png" ".mp4" = false ∧
      tagAt (fillImage (run (construct cfgDemo) []) "https://x/a.png")
        (run (construct cfgDemo) []).store.length = "IMG") :=
  ⟨⟨by decide, ((c2_showMedia_kind cfgDemo [] "https://x/b.mp4").2.2.2.1 (by decide)).1⟩,
   ⟨by decide, ((c2_showMedia_kind cfgDemo [] "https://x/a.png").2.1).mpr (by decide)⟩⟩

/-- Claim C3: in every reachable state at most one media element is attached to the
media container; a `fillImage` call builds its element off-tree (the fresh id
is not attached); and firing the readiness listener of any registered load
leaves exactly that load's element as the single attached media element. -/
theorem c3_single_media_attached (cfg : Cfg) (ops : List Op) :
    (mediaChildren (run (construct cfg) ops)).length ≤ 1 ∧
    (∀ url, (run (construct cfg) ops).store.length ∉
      childrenOf (fillImage (run (construct cfg) ops) url)
        (fillImage (run (construct cfg) ops) url).imageContainer) ∧
    (∀ i p, (run (construct cfg) ops).pending[i]? = some p →
      mediaChildren (fireReady (run (construct cfg) ops) i) = [p.1]) := by
  have h := WF_run _ (WF_construct cfg) ops
  refine ⟨?atmost, ?offtree, ?exact⟩
  case atmost =>
    rw [mediaChildren_of_WF _ h]
    cases (run (construct cfg) ops).imageEl <;> simp
  case offtree =>
    intro url
    have hbne : (run (construct cfg) ops).fileButton ≠
        (run (construct cfg) ops).imageContainer := by
      rw [h.button_eq, h.container_eq]
      omega
    have hclt : (run (construct cfg) ops).imageContainer <
        (run (construct cfg) ops).store.length := by
      have := h.store_len
      rw [h.container_eq]
      omega
    have hch : childrenOf (fillImage (run (construct cfg) ops) url)
        (run (construct cfg) ops).imageContainer =
        childrenAtS (run (construct cfg) ops).store
          (run (construct cfg) ops).imageContainer := by
      show childrenAtS _ _ = _
      simp only [fillImage]
      rw [childrenAtS, updNode_getElem_ne _ _ _ _ hbne,
        List.getElem?_append_left hclt, childrenAtS]
    rw [show (fillImage (run (construct cfg) ops) url).imageContainer =
      (run (construct cfg) ops).imageContainer from rfl, hch, h.container_eq]
    intro hmem
    have := h.children_lt _ hmem
    omega
  case exact =>
    intro i p hp
    obtain ⟨h5, hlt, hm⟩ := h.pending_ok p (List.getElem?_mem hp)
    have hWF' : WF (fireReady (run (construct cfg) ops) i) :=
      WF_fireReady _ h i
    have hfr : fireReady (run (construct cfg) ops) i =
        fireHandler (run (construct cfg) ops) p.1 := by
      simp [fireReady, hp]
    rw [mediaChildren_of_WF _ hWF', hfr, imageEl_fireHandler]

/-- Claim C3 witness: two overlapping loads; after the second readiness signal the
second element is the only attached media element. -/
theorem c3_single_media_attached_witness :
    (run (construct cfgDemo)
      [Op.fillImage "https://x/a.png", Op.fillImage "https://x/b.mp4",
        Op.fireReady 0]).pending[1]? = some (6, "loadeddata") ∧
    mediaChildren (fireReady (run (construct cfgDemo)
      [Op.fillImage "https://x/a.png", Op.fillImage "https://x/b.mp4",
        Op.fireReady 0]) 1) = [6] :=
  ⟨by decide, (c3_single_media_attached cfgDemo
      [Op.fillImage "https://x/a.png", Op.fillImage "https://x/b.mp4",
        Op.fireReady 0]).2.2 1 (6, "loadeddata") (by decide)⟩

/-- Claim C4 counterexample: immediately after construction — a point in the
widget's lifetime — no `UiState` modifier is present on the wrapper, so
"exactly one of the three modifiers is present" fails there. -/
theorem c4_exactly_one_counterexample :
    presentStates (construct cfgDemo) = [] ∧
      (presentStates (construct cfgDemo)).length ≠ 1 := by decide

/-- Claim C4 (amended): at most one `UiState` modifier is ever present on the
wrapper, provided `applyTune` is never called with a tune name whose modifier
collides with a state modifier; and from the first state-forcing operation
(`hidePreloader`, or `render` with an absent/empty file) onward exactly one
modifier is present.  Immediately after construction none is present. -/
theorem c4_amended_state_classes (cfg : Cfg) (ops : List Op)
    (htune : ∀ op ∈ ops, tuneOk op) :
    (presentStates (run (construct cfg) ops)).length ≤ 1 ∧
    ((∃ op ∈ ops, forcesStatus op) →
      (presentStates (run (construct cfg) ops)).length = 1) := by
  have key : ∀ s : UiState, statePresent (construct cfg) s → stateClass s = cfg.stylesBlock := by
    intro s hs
    have hmem : stateClass s ∈ classAdd cssWrapper (classAdd cfg.stylesBlock []) := hs
    rw [mem_classAdd, mem_classAdd] at hmem
    rcases hmem with ((h0 | h1) | h2)
    · cases h0
    · exact h1
    · exact absurd h2 (by cases s <;> decide)
  have hbase : (presentStates (construct cfg)).length ≤ 1 := by
    by_cases hE : statePresent (construct cfg) UiState.Empty <;>
      by_cases hU : statePresent (construct cfg) UiState.Uploading <;>
      by_cases hF : statePresent (construct cfg) UiState.Filled <;>
      simp [presentStates, UiState.all, hE, hU, hF] <;>
      exfalso
    · exact (by decide : stateClass UiState.Empty ≠ stateClass UiState.Uploading)
        ((key _ hE).trans (key _ hU).symm)
    · exact (by decide : stateClass UiState.Empty ≠ stateClass UiState.Uploading)
        ((key _ hE).trans (key _ hU).symm)
    · exact (by decide : stateClass UiState.Empty ≠ stateClass UiState.Filled)
        ((key _ hE).trans (key _ hF).symm)
    · exact (by decide : stateClass UiState.Uploading ≠ stateClass UiState.Filled)
        ((key _ hU).trans (key _ hF).symm)
  obtain ⟨hle, hone⟩ := c4_run (construct cfg) (WF_construct cfg) ops htune hbase
  exact ⟨hle, fun hf => hone (Or.inr hf)⟩

/-- Claim C4 witness: after `hidePreloader` on a fresh widget, exactly one modifier
is present. -/
theorem c4_amended_state_classes_witness :
    (∀ op ∈ ([Op.hidePreloader] : List Op), tuneOk op) ∧
    (∃ op ∈ ([Op.hidePreloader] : List Op), forcesStatus op) ∧
    (presentStates (run (construct cfgDemo) [Op.hidePreloader])).length = 1 :=
  ⟨by decide, ⟨Op.hidePreloader, by decide, by decide⟩,
    (c4_amended_state_classes cfgDemo [Op.hidePreloader] (by decide)).2
      ⟨Op.hidePreloader, by decide, by decide⟩⟩

/-- Claim C5 counterexample: from a wrapper state that already carries the border
modifier, the pair `applyTune "border" true; applyTune "border" false` does
not restore the class list — it removes the modifier. -/
theorem c5_border_roundtrip_counterexample :
    wrapperClasses
        (applyTune (applyTune (applyTune (construct cfgDemo) "border" true)
          "border" true) "border" false) ≠
      wrapperClasses (applyTune (construct cfgDemo) "border" true) := by decide

/-- Claim C5 (amended): the `applyTune "border" true` / `applyTune "border" false`
pair restores the wrapper class list exactly when the border modifier was
absent beforehand (as it is on a fresh widget); when it was already present,
the pair removes it. -/
theorem c5_border_roundtrip (u : UiT) :
    ("image-tool--border" ∉ wrapperClasses u →
      wrapperClasses (applyTune (applyTune u "border" true) "border" false) =
        wrapperClasses u) ∧
    ("image-tool--border" ∈ wrapperClasses u →
      wrapperClasses (applyTune (applyTune u "border" true) "border" false) =
        (wrapperClasses u).erase "image-tool--border") := by
  have hb : cssWrapper ++ "--" ++ "border" = "image-tool--border" := rfl
  by_cases hw : u.wrapper < u.store.length
  · have hw2 : (applyTune u "border" true).wrapper <
        (applyTune u "border" true).store.length := by
      show u.wrapper < (updNode _ _ _).length
      rw [updNode_length]
      exact hw
    have h1 := wrapperClasses_applyTune u "border" true hw
    have h2 := wrapperClasses_applyTune (applyTune u "border" true) "border" false hw2
    rw [h2, h1, hb]
    constructor
    · intro habs
      rw [classToggle, classToggle, if_pos rfl, if_neg (by simp), classAdd, if_neg habs,
        List.erase_append_right _ habs]
      simp
    · intro hpres
      rw [classToggle, classToggle, if_pos rfl, if_neg (by simp), classAdd, if_pos hpres]
  · have hnone : u.store[u.wrapper]? = none := List.getElem?_eq_none (Nat.le_of_not_lt hw)
    have hempty : wrapperClasses u = [] := by
      simp [wrapperClasses, classesAtS, hnone]
    have hu1 : applyTune u "border" true = u := by
      simp [applyTune, updNode, hnone]
    rw [hu1]
    have hu2 : applyTune u "border" false = u := by
      simp [applyTune, updNode, hnone]
    rw [hu2, hempty]
    exact ⟨fun _ => rfl, fun hmem => absurd hmem (by simp)⟩

/-- Claim C5 witness: on a fresh widget the border modifier is absent, and the
toggle pair restores the class list. -/
theorem c5_border_roundtrip_witness :
    "image-tool--border" ∉ wrapperClasses (construct cfgDemo) ∧
    wrapperClasses (applyTune (applyTune (construct cfgDemo) "border" true)
        "border" false) = wrapperClasses (construct cfgDemo) :=
  ⟨by decide, (c5_border_roundtrip (construct cfgDemo)).1 (by decide)⟩

/-- Claim C6: in every reachable state, a media element is attached iff `imageEl`
is set; when none is attached `clearImage` changes nothing; when one is
attached, `clearImage` clears its source, hides it, restores the select-file
button to visible (`flex`) and interactive (`auto`), and the media node stays
in the container's children with `imageEl` still pointing at it. -/
theorem c6_clearMedia (cfg : Cfg) (ops : List Op) :
    (mediaChildren (run (construct cfg) ops) = [] ↔
      (run (construct cfg) ops).imageEl = none) ∧
    ((run (construct cfg) ops).imageEl = none →
      clearImage (run (construct cfg) ops) = run (construct cfg) ops) ∧
    (∀ i, (run (construct cfg) ops).imageEl = some i →
      srcAt (clearImage (run (construct cfg) ops)) i = some (AttrV.str "") ∧
      styleDisplayAt (clearImage (run (construct cfg) ops)) i = "none" ∧
      i ∈ childrenOf (clearImage (run (construct cfg) ops))
        (clearImage (run (construct cfg) ops)).imageContainer ∧
      styleDisplayAt (clearImage (run (construct cfg) ops))
        (clearImage (run (construct cfg) ops)).fileButton = "flex" ∧
      stylePointerEventsAt (clearImage (run (construct cfg) ops))
        (clearImage (run (construct cfg) ops)).fileButton = "auto" ∧
      (clearImage (run (construct cfg) ops)).imageEl =
        (run (construct cfg) ops).imageEl) := by
  have h := WF_run _ (WF_construct cfg) ops
  refine ⟨?media, ?noop, ?clear⟩
  case media =>
    rw [mediaChildren_of_WF _ h]
    cases (run (construct cfg) ops).imageEl <;> simp
  case noop =>
    intro him
    simp [clearImage, him]
  case clear =>
    intro i him
    obtain ⟨h5, hlt, hmem, hmed⟩ := h.imageEl_mem i him
    have hbne : (run (construct cfg) ops).fileButton ≠ i := by
      rw [h.button_eq]
      omega
    have hblt : (run (construct cfg) ops).fileButton <
        (run (construct cfg) ops).store.length := by
      have := h.store_len
      rw [h.button_eq]
      omega
    have hine : i ≠ (run (construct cfg) ops).fileButton := fun hh => hbne hh.symm
    obtain ⟨e, he⟩ : ∃ e, (run (construct cfg) ops).store[i]? = some e :=
      ⟨_, List.getElem?_eq_getElem hlt⟩
    obtain ⟨btn, hbtn⟩ : ∃ b,
        (run (construct cfg) ops).store[(run (construct cfg) ops).fileButton]? = some b :=
      ⟨_, List.getElem?_eq_getElem hblt⟩
    have hcne : (run (construct cfg) ops).imageContainer ≠ i := by
      rw [h.container_eq]
      omega
    have hcbne : (run (construct cfg) ops).imageContainer ≠
        (run (construct cfg) ops).fileButton := by
      rw [h.container_eq, h.button_eq]
      omega
    refine ⟨?src, ?disp, ?mem, ?bdisp, ?bptr, ?img⟩
    case src =>
      simp only [clearImage, him, srcAt]
      rw [updNode_getElem_ne _ _ _ _ hbne, updNode_getElem_self, he]
      simp [lookup_attrsSet_self]
    case disp =>
      simp only [clearImage, him, styleDisplayAt]
      rw [updNode_getElem_ne _ _ _ _ hbne, updNode_getElem_self, he]
      rfl
    case mem =>
      simp only [clearImage, him, childrenOf]
      rw [show (run (construct cfg) ops).imageContainer = 1 from h.container_eq] at hcne hcbne ⊢
      rw [childrenAtS, updNode_getElem_ne _ _ _ _ (fun hh => hcbne hh.symm),
        updNode_getElem_ne _ _ _ _ (fun hh => hcne hh.symm), ← childrenAtS]
      exact hmem
    case bdisp =>
      simp only [clearImage, him, styleDisplayAt]
      rw [updNode_getElem_self, updNode_getElem_ne _ _ _ _ hine, hbtn]
      rfl
    case bptr =>
      simp only [clearImage, him, stylePointerEventsAt]
      rw [updNode_getElem_self, updNode_getElem_ne _ _ _ _ hine, hbtn]
      rfl
    case img => simp [clearImage, him]

/-- Claim C6 witness: in the initial state no media is attached and `clearImage`
is the identity. -/
theorem c6_clearMedia_witness :
    (run (construct cfgDemo) []).imageEl = none ∧
    clearImage (run (construct cfgDemo) []) = run (construct cfgDemo) [] :=
  ⟨rfl, (c6_clearMedia cfgDemo []).2.1 rfl⟩

/-- Claim C7: `showMedia`/`fillImage` hides and disables the select-file button
synchronously: already in the state it returns — before any readiness signal
has fired — the button's display is `none` and its pointer events are `none`,
while no attachment has happened (all children lists are unchanged, and the
registered listener is still pending). -/
theorem c7_affordance_hidden_sync (cfg : Cfg) (ops : List Op) (url : String) :
    styleDisplayAt (fillImage (run (construct cfg) ops) url)
      (fillImage (run (construct cfg) ops) url).fileButton = "none" ∧
    stylePointerEventsAt (fillImage (run (construct cfg) ops) url)
      (fillImage (run (construct cfg) ops) url).fileButton = "none" ∧
    (∀ j, childrenOf (fillImage (run (construct cfg) ops) url) j =
      childrenOf (run (construct cfg) ops) j) ∧
    (fillImage (run (construct cfg) ops) url).pending =
      (run (construct cfg) ops).pending ++
        [((run (construct cfg) ops).store.length,
          if strEndsWith url ".mp4" then "loadeddata" else "load")] := by
  have h := WF_run _ (WF_construct cfg) ops
  have hblt : (run (construct cfg) ops).fileButton <
      (run (construct cfg) ops).store.length := by
    have := h.store_len
    rw [h.button_eq]
    omega
  obtain ⟨btn, hbtn⟩ : ∃ b,
      (run (construct cfg) ops).store[(run (construct cfg) ops).fileButton]? = some b :=
    ⟨_, List.getElem?_eq_getElem hblt⟩
  refine ⟨?disp, ?ptr, ?ch, ?pend⟩
  case disp =>
    simp only [fillImage, styleDisplayAt]
    rw [updNode_getElem_self, List.getElem?_append_left hblt, hbtn]
    rfl
  case ptr =>
    simp only [fillImage, stylePointerEventsAt]
    rw [updNode_getElem_self, List.getElem?_append_left hblt, hbtn]
    rfl
  case ch =>
    intro j
    simp only [fillImage, childrenOf]
    by_cases hj : j = (run (construct cfg) ops).fileButton
    · subst hj
      rw [childrenAtS, updNode_getElem_self, List.getElem?_append_left hblt, hbtn,
        childrenAtS, hbtn]
      rfl
    · rw [childrenAtS, updNode_getElem_ne _ _ _ _ (fun hh => hj hh.symm)]
      by_cases hlt : j < (run (construct cfg) ops).store.length
      · rw [List.getElem?_append_left hlt, ← childrenAtS]
      · by_cases hje : j = (run (construct cfg) ops).store.length
        · rw [hje, List.getElem?_concat_length]
          have hnone : (run (construct cfg) ops).store[(run (construct cfg)
              ops).store.length]? = none := List.getElem?_eq_none (Nat.le_refl _)
          simp [childrenAtS, hnone, make]
        · have h1 : ((run (construct cfg) ops).store ++
              [make (if strEndsWith url ".mp4" then "VIDEO" else "IMG") [cssImageEl]
                (if strEndsWith url ".mp4" then
                  [("src", AttrV.str url), ("autoplay", AttrV.bool true),
                    ("loop", AttrV.bool true), ("muted", AttrV.bool true),
                    ("playsinline", AttrV.bool true)]
                else [("src", AttrV.str url)])])[j]? = none := by
            refine List.getElem?_eq_none ?hl
            simp only [List.length_append, List.length_singleton]
            omega
          have h2 : (run (construct cfg) ops).store[j]? = none :=
            List.getElem?_eq_none (Nat.le_of_not_lt hlt)
          rw [h1, childrenAtS, h2]
  case pend =>
    cases hv : strEndsWith url ".mp4" <;> simp [fillImage, hv]

/-- Claim C8: `hidePreloader` clears the preloader's background image and forces
Empty-state styling, while leaving any attached media untouched: `imageEl`,
every children list, and the media element's node are unchanged. -/
theorem c8_hidePreloader_effects (cfg : Cfg) (ops : List Op) :
    styleBackgroundImageAt (hidePreloader (run (construct cfg) ops))
      (hidePreloader (run (construct cfg) ops)).imagePreloader = "" ∧
    presentStates (hidePreloader (run (construct cfg) ops)) = [UiState.Empty] ∧
    (hidePreloader (run (construct cfg) ops)).imageEl =
      (run (construct cfg) ops).imageEl ∧
    (∀ j, childrenOf (hidePreloader (run (construct cfg) ops)) j =
      childrenOf (run (construct cfg) ops) j) ∧
    (∀ i, (run (construct cfg) ops).imageEl = some i →
      nodeAt (hidePreloader (run (construct cfg) ops)) i =
        nodeAt (run (construct cfg) ops) i) := by
  have h := WF_run _ (WF_construct cfg) ops
  have hplt : (run (construct cfg) ops).imagePreloader <
      (run (construct cfg) ops).store.length := by
    have := h.store_len
    rw [h.preloader_eq]
    omega
  have hwpne : (run (construct cfg) ops).wrapper ≠
      (run (construct cfg) ops).imagePreloader := by
    rw [h.wrapper_eq, h.preloader_eq]
    omega
  obtain ⟨pre, hpre⟩ : ∃ p,
      (run (construct cfg) ops).store[(run (construct cfg) ops).imagePreloader]? = some p :=
    ⟨_, List.getElem?_eq_getElem hplt⟩
  refine ⟨?bg, presentStates_hidePreloader _ h, rfl, ?ch, ?node⟩
  case bg =>
    simp only [hidePreloader, toggleStatus, styleBackgroundImageAt]
    rw [updNode_getElem_ne _ _ _ _ hwpne, updNode_getElem_self, hpre]
    rfl
  case ch =>
    intro j
    simp only [hidePreloader, toggleStatus, childrenOf]
    refine Eq.trans (childrenAtS_updNode _ _ _ ?h1 j) (childrenAtS_updNode _ _ _ ?h2 j)
    case h1 => intro e; rfl
    case h2 => intro e; rfl
  case node =>
    intro i him
    obtain ⟨h5, hlt, hmem, hmed⟩ := h.imageEl_mem i him
    have hwne : (run (construct cfg) ops).wrapper ≠ i := by
      rw [h.wrapper_eq]
      omega
    have hpne : (run (construct cfg) ops).imagePreloader ≠ i := by
      rw [h.preloader_eq]
      omega
    simp only [hidePreloader, toggleStatus, nodeAt]
    rw [updNode_getElem_ne _ _ _ _ hwne, updNode_getElem_ne _ _ _ _ hpne]

/-- Claim C8 witness: after a successful load, `hidePreloader` leaves the attached
media node (id 5) unchanged. -/
theorem c8_hidePreloader_effects_witness :
    (run (construct cfgDemo) [Op.fillImage "https://x/a.png", Op.fireReady 0]).imageEl =
      some 5 ∧
    nodeAt (hidePreloader (run (construct cfgDemo)
        [Op.fillImage "https://x/a.png", Op.fireReady 0])) 5 =
      nodeAt (run (construct cfgDemo)
        [Op.fillImage "https://x/a.png", Op.fireReady 0]) 5 :=
  ⟨by decide, (c8_hidePreloader_effects cfgDemo
      [Op.fillImage "https://x/a.png", Op.fireReady 0]).2.2.2.2 5 (by decide)⟩

/-- Claim C9: `fillCaption` is total (it never throws), replaces the caption
element's rendered content verbatim when the caption node exists — leaving
every other node and all children untouched — and is a silent no-op on any
state without a caption node. -/
theorem c9_setCaption (cfg : Cfg) (ops : List Op) (text : String) :
    (∀ c, (run (construct cfg) ops).caption = some c →
      innerHTMLAt (fillCaption (run (construct cfg) ops) text) c = text) ∧
    (∀ j, j ≠ 4 →
      nodeAt (fillCaption (run (construct cfg) ops) text) j =
        nodeAt (run (construct cfg) ops) j) ∧
    (∀ j, childrenOf (fillCaption (run (construct cfg) ops) text) j =
      childrenOf (run (construct cfg) ops) j) ∧
    (∀ v : UiT, v.caption = none → fillCaption v text = v) := by
  have h := WF_run _ (WF_construct cfg) ops
  have h4lt : (4 : Nat) < (run (construct cfg) ops).store.length := by
    have := h.store_len
    omega
  obtain ⟨cap, hcap⟩ : ∃ c, (run (construct cfg) ops).store[(4 : Nat)]? = some c :=
    ⟨_, List.getElem?_eq_getElem h4lt⟩
  refine ⟨?content, ?others, ?ch, ?noop⟩
  case content =>
    intro c hc
    rw [h.caption_eq] at hc
    obtain rfl : (4 : Nat) = c := Option.some_inj.mp hc
    simp only [fillCaption, h.caption_eq, innerHTMLAt]
    rw [updNode_getElem_self, hcap]
    rfl
  case others =>
    intro j hj
    simp only [fillCaption, h.caption_eq, nodeAt]
    rw [updNode_getElem_ne _ _ _ _ (fun hh => hj hh.symm)]
  case ch =>
    intro j
    simp only [fillCaption, h.caption_eq, childrenOf]
    refine childrenAtS_updNode _ _ _ ?hch j
    intro e
    rfl
  case noop =>
    intro v hv
    simp [fillCaption, hv]

/-- Claim C9 witness: setting the caption on a fresh widget stores the text on the
caption node and leaves the wrapper node untouched. -/
theorem c9_setCaption_witness :
    (run (construct cfgDemo) []).caption = some 4 ∧
    innerHTMLAt (fillCaption (run (construct cfgDemo) []) "hello") 4 = "hello" ∧
    (0 : Nat) ≠ 4 ∧
    nodeAt (fillCaption (run (construct cfgDemo) []) "hello") 0 =
      nodeAt (run (construct cfgDemo) []) 0 :=
  ⟨rfl, (c9_setCaption cfgDemo [] "hello").1 4 rfl, by decide,
    (c9_setCaption cfgDemo [] "hello").2.1 0 (by decide)⟩

/-- Claim C10: the caption node (id 4) is created at construction with its
placeholder set, but no operation ever attaches it: in every reachable state
the caption handle still points at it, it appears in no children list, it is
not a descendant of the wrapper returned by `render`, and `fillCaption`
mutates only this detached node, leaving the rendered tree unchanged. -/
theorem c10_caption_detached (cfg : Cfg) (ops : List Op) :
    (construct cfg).caption = some 4 ∧
    placeholderAt (construct cfg) 4 = cfg.captionPlaceholder ∧
    (run (construct cfg) ops).caption = some 4 ∧
    (∀ j, (4 : Nat) ∉ childrenOf (run (construct cfg) ops) j) ∧
    ¬ Desc (run (construct cfg) ops) (run (construct cfg) ops).wrapper 4 ∧
    (∀ text j, childrenOf (fillCaption (run (construct cfg) ops) text) j =
      childrenOf (run (construct cfg) ops) j) ∧
    (∀ text j, j ≠ 4 →
      nodeAt (fillCaption (run (construct cfg) ops) text) j =
        nodeAt (run (construct cfg) ops) j) := by
  have h := WF_run _ (WF_construct cfg) ops
  refine ⟨rfl, by simp [placeholderAt, construct, make], h.caption_eq,
    h.no_caption_child, ?nodesc, ?ch, ?others⟩
  case nodesc =>
    intro hd
    exact not_Desc_of_no_child _ h.no_caption_child _ _ hd rfl
  case ch =>
    intro text j
    simp only [fillCaption, h.caption_eq, childrenOf]
    refine childrenAtS_updNode _ _ _ ?hch j
    intro e
    rfl
  case others =>
    intro text j hj
    simp only [fillCaption, h.caption_eq, nodeAt]
    rw [updNode_getElem_ne _ _ _ _ (fun hh => hj hh.symm)]

/-- Claim C10 witness: on a fresh widget the caption carries the configured
placeholder and is not among the children of the wrapper or the container. -/
theorem c10_caption_detached_witness :
    placeholderAt (construct cfgDemo) 4 = some "Enter a caption" ∧
    (4 : Nat) ∉ childrenOf (run (construct cfgDemo) []) 0 ∧
    (4 : Nat) ∉ childrenOf (run (construct cfgDemo) []) 1 :=
  ⟨(c10_caption_detached cfgDemo []).2.1, (c10_caption_detached cfgDemo []).2.2.2.1 0,
    (c10_caption_detached cfgDemo []).2.2.2.1 1⟩

end UiT
